import Mathlib

set_option maxHeartbeats 1600000

/-!
Verification development for the kubitor snapshot/reconciliation engine.

The Python source is embedded shallowly:
 * JSON-like resource documents (Python dicts produced by `model_dump()` /
   `json.loads`) become the inductive type `JVal`; Python dicts are
   insertion-ordered association lists, matching CPython semantics.
 * `json.dumps(x, sort_keys=True)` (used by
   `DatabaseService._calculate_resource_hash`, src/database/service.py:325)
   is embedded as serialization of the key-sorted normal form: `dumps`.
 * `hashlib.sha256(...).hexdigest()` is embedded bit-for-bit over byte lists
   (`sha256hex`), with machine words as `Nat` reduced mod 2^32.
 * The database tables become lists of typed rows; SQL point/range queries
   become filters, `ORDER BY ... DESC` becomes a sort, autoincrement ids
   become counters.
-/

/-- JSON-like document values, mirroring the Python dictionaries passed to
`DatabaseService._calculate_resource_hash`.  Objects keep their (insertion)
entry order, as CPython dicts do; numbers are modelled as integers. -/
inductive JVal where
  | null : JVal
  | bool (b : Bool) : JVal
  | num (n : Int) : JVal
  | str (s : String) : JVal
  | arr (items : List JVal) : JVal
  | obj (entries : List (String × JVal)) : JVal

/-- Python `d.get(k)` / `d[k]`: the value of the first entry carrying key `k`
(a real dict has at most one). -/
def lookupKey (k : String) (l : List (String × JVal)) : Option JVal :=
  match l.find? (fun e => e.1 == k) with
  | some e => some e.2
  | none => none

/-- Python `d.pop(k, None)`: drop the entry with key `k` if present,
keeping the order of the remaining entries. -/
def popKey (k : String) (l : List (String × JVal)) : List (String × JVal) :=
  l.filter (fun e => e.1 != k)

/-- Python `d[k] = v`: replace the value in place when the key exists
(keeping its position), otherwise append a new entry at the end. -/
def setKey (k : String) (v : JVal) (l : List (String × JVal)) : List (String × JVal) :=
  if l.any (fun e => e.1 == k) then l.map (fun e => if e.1 == k then (k, v) else e)
  else l ++ [(k, v)]

/-- Key order used by `json.dumps(..., sort_keys=True)`: lexicographic
order on the keys (CPython compares strings by code point). -/
def keyLE (a b : String × JVal) : Prop := a.1 ≤ b.1

instance : DecidableRel keyLE := fun a b => inferInstanceAs (Decidable (a.1 ≤ b.1))

instance : IsTotal (String × JVal) keyLE := ⟨fun a b => le_total a.1 b.1⟩

instance : IsTrans (String × JVal) keyLE := ⟨fun _ _ _ h1 h2 => le_trans h1 h2⟩

/-- Sort the entries of one object level by key, as the `sort_keys=True`
serializer does.  The sort is stable; real dicts have no duplicate keys,
so any correct sort gives the same list. -/
def sortEntries (l : List (String × JVal)) : List (String × JVal) :=
  List.insertionSort keyLE l

mutual
/-- Key-sorted normal form: the order in which `json.dumps(..., sort_keys=True)`
visits a document — every object level sorted by key, arrays kept in order. -/
def canon : JVal → JVal
  | .null => .null
  | .bool b => .bool b
  | .num n => .num n
  | .str s => .str s
  | .arr items => .arr (canonList items)
  | .obj entries => .obj (sortEntries (canonEntries entries))

/-- Pointwise `canon` over an array's items. -/
def canonList : List JVal → List JVal
  | [] => []
  | v :: rest => canon v :: canonList rest

/-- Pointwise `canon` over an object's values, keys untouched. -/
def canonEntries : List (String × JVal) → List (String × JVal)
  | [] => []
  | (k, v) :: rest => (k, canon v) :: canonEntries rest
end

/-- Lower-case hex digit, as in Python's `hexdigest()`. -/
def hexDigitChar (n : Nat) : Char :=
  if n < 10 then Char.ofNat (48 + n) else Char.ofNat (87 + n)

/-- Big-endian fixed-width hex rendering of a number. -/
def hexDigits : Nat → Nat → List Char
  | 0, _ => []
  | w + 1, v => hexDigits w (v / 16) ++ [hexDigitChar (v % 16)]

/-- Four-digit hex, used in JSON `\uXXXX` escapes. -/
def hex4 (n : Nat) : String := String.mk (hexDigits 4 n)

/-- Escape one character the way `json.dumps` (default `ensure_ascii=True`)
does inside string literals. -/
def escChar (c : Char) : String :=
  if c = '"' then "\\\""
  else if c = '\\' then "\\\\"
  else if c = '\n' then "\\n"
  else if c = '\t' then "\\t"
  else if c = '\r' then "\\r"
  else if c = '\x08' then "\\b"
  else if c = '\x0c' then "\\f"
  else if c.toNat < 32 then "\\u" ++ hex4 c.toNat
  else if c.toNat < 127 then String.singleton c
  else if c.toNat < 65536 then "\\u" ++ hex4 c.toNat
  else
    "\\u" ++ hex4 (55296 + (c.toNat - 65536) / 1024) ++
      "\\u" ++ hex4 (56320 + (c.toNat - 65536) % 1024)

/-- JSON string literal serialization. -/
def serStr (s : String) : String :=
  "\"" ++ String.join (s.data.map escChar) ++ "\""

mutual
/-- Plain JSON serializer with Python's default separators `, ` and `: `;
applied to the `canon` normal form this is `json.dumps(x, sort_keys=True)`. -/
def ser : JVal → String
  | .null => "null"
  | .bool true => "true"
  | .bool false => "false"
  | .num n => toString n
  | .str s => serStr s
  | .arr items => "[" ++ serList items ++ "]"
  | .obj entries => "\x7b" ++ serEntries entries ++ "\x7d"

/-- Comma-separated serialization of array items. -/
def serList : List JVal → String
  | [] => ""
  | [v] => ser v
  | v :: rest => ser v ++ ", " ++ serList rest

/-- Comma-separated serialization of object entries. -/
def serEntries : List (String × JVal) → String
  | [] => ""
  | [(k, v)] => serStr k ++ ": " ++ ser v
  | (k, v) :: rest => serStr k ++ ": " ++ ser v ++ ", " ++ serEntries rest
end

/-- Embedding of `json.dumps(x, sort_keys=True)`. -/
def dumps (j : JVal) : String := ser (canon j)

/-- UTF-8 encoding of one character (Python `str.encode()`). -/
def utf8Char (c : Char) : List Nat :=
  let n := c.toNat
  if n < 128 then [n]
  else if n < 2048 then [192 + n / 64, 128 + n % 64]
  else if n < 65536 then [224 + n / 4096, 128 + n / 64 % 64, 128 + n % 64]
  else [240 + n / 262144, 128 + n / 4096 % 64, 128 + n / 64 % 64, 128 + n % 64]

/-- UTF-8 encoding of a string as a byte list (Python `s.encode()`). -/
def utf8Encode (s : String) : List Nat := (s.data.map utf8Char).flatten

/-- Reduce to a 32-bit machine word. -/
def w32 (x : Nat) : Nat := x % 4294967296

/-- 32-bit right rotation. -/
def rotr32 (n x : Nat) : Nat := w32 ((x >>> n) ||| (x <<< (32 - n)))

/-- SHA-256 choice function. -/
def shaCh (x y z : Nat) : Nat := (x &&& y) ^^^ ((x ^^^ 4294967295) &&& z)

/-- SHA-256 majority function. -/
def shaMaj (x y z : Nat) : Nat := (x &&& y) ^^^ (x &&& z) ^^^ (y &&& z)

/-- SHA-256 Σ0. -/
def bigSigma0 (x : Nat) : Nat := rotr32 2 x ^^^ rotr32 13 x ^^^ rotr32 22 x

/-- SHA-256 Σ1. -/
def bigSigma1 (x : Nat) : Nat := rotr32 6 x ^^^ rotr32 11 x ^^^ rotr32 25 x

/-- SHA-256 σ0. -/
def smallSigma0 (x : Nat) : Nat := rotr32 7 x ^^^ rotr32 18 x ^^^ (x >>> 3)

/-- SHA-256 σ1. -/
def smallSigma1 (x : Nat) : Nat := rotr32 17 x ^^^ rotr32 19 x ^^^ (x >>> 10)

/-- The 64 SHA-256 round constants. -/
def shaK : List Nat :=
  [1116352408, 1899447441, 3049323471, 3921009573, 961987163, 1508970993,
   2453635748, 2870763221, 3624381080, 310598401, 607225278, 1426881987,
   1925078388, 2162078206, 2614888103, 3248222580, 3835390401, 4022224774,
   264347078, 604807628, 770255983, 1249150122, 1555081692, 1996064986,
   2554220882, 2821834349, 2952996808, 3210313671, 3336571891, 3584528711,
   113926993, 338241895, 666307205, 773529912, 1294757372, 1396182291,
   1695183700, 1986661051, 2177026350, 2456956037, 2730485921, 2820302411,
   3259730800, 3345764771, 3516065817, 3600352804, 4094571909, 275423344,
   430227734, 506948616, 659060556, 883997877, 958139571, 1322822218,
   1537002063, 1747873779, 1955562222, 2024104815, 2227730452, 2361852424,
   2428436474, 2756734187, 3204031479, 3329325298]

/-- Big-endian byte rendering of a number at a fixed width. -/
def beBytes : Nat → Nat → List Nat
  | 0, _ => []
  | w + 1, v => beBytes w (v / 256) ++ [v % 256]

/-- SHA-256 message padding: 0x80, zeros to 56 mod 64, 64-bit bit length. -/
def sha256pad (msg : List Nat) : List Nat :=
  msg ++ [128] ++ List.replicate ((119 - msg.length % 64) % 64) 0 ++ beBytes 8 (msg.length * 8)

/-- Group bytes into big-endian 32-bit words. -/
def bytesToWords : List Nat → List Nat
  | b0 :: b1 :: b2 :: b3 :: rest =>
      (((b0 * 256 + b1) * 256 + b2) * 256 + b3) :: bytesToWords rest
  | _ => []

/-- Split a word list into 16-word blocks. -/
def toBlocks : List Nat → List (List Nat)
  | [] => []
  | w :: ws => ((w :: ws).take 16) :: toBlocks ((w :: ws).drop 16)
termination_by l => l.length
decreasing_by simp [List.length_drop]; omega

/-- Extend a 16-word block by `n` schedule words. -/
def extendWords (ws : List Nat) : Nat → List Nat
  | 0 => ws
  | n + 1 =>
    let cur := extendWords ws n
    let len := cur.length
    cur ++ [w32 (smallSigma1 (cur.getD (len - 2) 0) + cur.getD (len - 7) 0 +
      smallSigma0 (cur.getD (len - 15) 0) + cur.getD (len - 16) 0)]

/-- The 64-word message schedule of one block. -/
def schedule (block : List Nat) : List Nat := extendWords block 48

/-- The eight SHA-256 working variables. -/
structure ShaState where
  a : Nat
  b : Nat
  c : Nat
  d : Nat
  e : Nat
  f : Nat
  g : Nat
  h : Nat

/-- One SHA-256 round, fed a (round constant, schedule word) pair. -/
def shaRound (st : ShaState) (kw : Nat × Nat) : ShaState :=
  let t1 := w32 (st.h + bigSigma1 st.e + shaCh st.e st.f st.g + kw.1 + kw.2)
  let t2 := w32 (bigSigma0 st.a + shaMaj st.a st.b st.c)
  ⟨w32 (t1 + t2), st.a, st.b, st.c, w32 (st.d + t1), st.e, st.f, st.g⟩

/-- Compress one 16-word block into the running state. -/
def compressBlock (hs : ShaState) (block : List Nat) : ShaState :=
  let fin := (shaK.zip (schedule block)).foldl shaRound hs
  ⟨w32 (hs.a + fin.a), w32 (hs.b + fin.b), w32 (hs.c + fin.c), w32 (hs.d + fin.d),
   w32 (hs.e + fin.e), w32 (hs.f + fin.f), w32 (hs.g + fin.g), w32 (hs.h + fin.h)⟩

/-- SHA-256 initial hash values. -/
def shaInit : ShaState :=
  ⟨1779033703, 3144134277, 1013904242, 2773480762,
   1359893119, 2600822924, 528734635, 1541459225⟩

/-- SHA-256 digest of a byte list, as eight 32-bit words. -/
def sha256digest (msg : List Nat) : ShaState :=
  (toBlocks (bytesToWords (sha256pad msg))).foldl compressBlock shaInit

/-- Eight-hex-digit rendering of one digest word. -/
def hex8 (n : Nat) : List Char := hexDigits 8 n

/-- Embedding of `hashlib.sha256(bytes).hexdigest()`. -/
def sha256hex (msg : List Nat) : String :=
  let dg := sha256digest msg
  String.mk (hex8 dg.a ++ hex8 dg.b ++ hex8 dg.c ++ hex8 dg.d ++
    hex8 dg.e ++ hex8 dg.f ++ hex8 dg.g ++ hex8 dg.h)

/-- The volatile-field stripping of `DatabaseService._calculate_resource_hash`
(src/database/service.py:315-324), expressed on document values: copy the
document, pop `resourceVersion`, `generation`, `managedFields` and
`creationTimestamp` from a copy of `metadata`, put the stripped copy back,
pop the top-level `status`.  The branching is in `cleanDoc` below; this
definition is the sequence of four `metadata.pop(...)` calls. -/
def stripVolatile (m : List (String × JVal)) : List (String × JVal) :=
  popKey "creationTimestamp" (popKey "managedFields"
    (popKey "generation" (popKey "resourceVersion" m)))

/-- Branching part of `DatabaseService._calculate_resource_hash`: pop the
volatile keys from a copy of `metadata` when it is present, then pop the
top-level `status`.  `none` models the `TypeError` Python raises when a
present `metadata` is not a mapping. -/
def cleanDoc (l : List (String × JVal)) : Option (List (String × JVal)) :=
  match lookupKey "metadata" l with
  | none => some (popKey "status" l)
  | some (JVal.obj m) => some (popKey "status" (setKey "metadata" (JVal.obj (stripVolatile m)) l))
  | some _ => none

/-- Embedding of `DatabaseService._calculate_resource_hash` on a document
given as its top-level entry list: strip volatile fields, serialize with
sorted keys, SHA-256 over the UTF-8 bytes, lower-case hex digest. -/
def calcResourceHash (l : List (String × JVal)) : Option String :=
  (cleanDoc l).map (fun f => sha256hex (utf8Encode (dumps (JVal.obj f))))

/-- No duplicate keys in a key list; CPython dicts guarantee this. -/
def keysNodupB : List String → Bool
  | [] => true
  | k :: rest => (!rest.contains k) && keysNodupB rest

mutual
/-- Well-formed document value: every object level is duplicate-key free,
which holds for every value that came out of a Python dict. -/
def wfJson : JVal → Bool
  | .null => true
  | .bool _ => true
  | .num _ => true
  | .str _ => true
  | .arr items => wfList items
  | .obj entries => keysNodupB (entries.map Prod.fst) && wfEntries entries

/-- Pointwise `wfJson` over array items. -/
def wfList : List JVal → Bool
  | [] => true
  | v :: rest => wfJson v && wfList rest

/-- Pointwise `wfJson` over object entry values. -/
def wfEntries : List (String × JVal) → Bool
  | [] => true
  | (_, v) :: rest => wfJson v && wfEntries rest
end

mutual
/-- The claim's notion of "a document obtained from D by permuting the keys
of its nested mappings": at every object level the entries may be reordered
(same key/value pairs), values rewritten by the same relation recursively,
arrays kept in order. -/
inductive KeyPerm : JVal → JVal → Prop where
  | null : KeyPerm .null .null
  | bool (b : Bool) : KeyPerm (.bool b) (.bool b)
  | num (n : Int) : KeyPerm (.num n) (.num n)
  | str (s : String) : KeyPerm (.str s) (.str s)
  | arr : KeyPermList items items2 → KeyPerm (.arr items) (.arr items2)
  | obj (mid : List (String × JVal)) : KeyPermPairs entries mid → mid.Perm entries2 →
      KeyPerm (.obj entries) (.obj entries2)

/-- Pointwise `KeyPerm` between array item lists. -/
inductive KeyPermList : List JVal → List JVal → Prop where
  | nil : KeyPermList [] []
  | cons : KeyPerm v v2 → KeyPermList rest rest2 → KeyPermList (v :: rest) (v2 :: rest2)

/-- Pointwise key-preserving, value-`KeyPerm` relation between entry lists. -/
inductive KeyPermPairs : List (String × JVal) → List (String × JVal) → Prop where
  | nil : KeyPermPairs [] []
  | cons (k : String) : KeyPerm v v2 → KeyPermPairs rest rest2 →
      KeyPermPairs ((k, v) :: rest) ((k, v2) :: rest2)
end

mutual
/-- Every document is a key-permutation of itself. -/
theorem keyPerm_refl : ∀ (a : JVal), KeyPerm a a
  | .null => .null
  | .bool b => .bool b
  | .num n => .num n
  | .str s => .str s
  | .arr items => .arr (keyPermList_refl items)
  | .obj entries => .obj entries (keyPermPairs_refl entries) (List.Perm.refl entries)

/-- Reflexivity of `KeyPermList`. -/
theorem keyPermList_refl : ∀ (l : List JVal), KeyPermList l l
  | [] => .nil
  | v :: rest => .cons (keyPerm_refl v) (keyPermList_refl rest)

/-- Reflexivity of `KeyPermPairs`. -/
theorem keyPermPairs_refl : ∀ (l : List (String × JVal)), KeyPermPairs l l
  | [] => .nil
  | (k, v) :: rest => .cons k (keyPerm_refl v) (keyPermPairs_refl rest)
end

/-- `KeyPermPairs` keeps the key sequence unchanged. -/
theorem keyPermPairs_keys : ∀ {l m : List (String × JVal)}, KeyPermPairs l m →
    l.map Prod.fst = m.map Prod.fst
  | _, _, .nil => rfl
  | _, _, .cons k _ hrest => by simp [keyPermPairs_keys hrest]

/-- `keysNodupB` decides `List.Nodup`. -/
theorem keysNodupB_iff (l : List String) : keysNodupB l = true ↔ l.Nodup := by
  induction l with
  | nil => simp [keysNodupB]
  | cons k rest ih => simp [keysNodupB, List.nodup_cons, ih, List.elem_iff]

/-- `canonEntries` is a map over the values. -/
theorem canonEntries_eq_map (l : List (String × JVal)) :
    canonEntries l = l.map (fun e => (e.1, canon e.2)) := by
  induction l with
  | nil => rfl
  | cons e rest ih => cases e; simp [canonEntries, ih]

/-- `canonEntries` keeps the key sequence unchanged. -/
theorem canonEntries_keys (l : List (String × JVal)) :
    (canonEntries l).map Prod.fst = l.map Prod.fst := by
  simp [canonEntries_eq_map]

/-- Strict key order on entries. -/
def keyLT (a b : String × JVal) : Prop := a.1 < b.1

instance : IsAntisymm (String × JVal) keyLT := ⟨fun _ _ h1 h2 => (lt_asymm h1 h2).elim⟩

/-- Two permuted entry lists without duplicate keys sort to the same list:
the serialization order of `sort_keys=True` does not depend on the dict's
insertion order. -/
theorem sortEntries_eq_of_perm {l m : List (String × JVal)} (hp : l.Perm m)
    (hn : (l.map Prod.fst).Nodup) : sortEntries l = sortEntries m := by
  have hp1 : (sortEntries l).Perm (sortEntries m) :=
    (List.perm_insertionSort keyLE l).trans (hp.trans (List.perm_insertionSort keyLE m).symm)
  have strictOf : ∀ (x : List (String × JVal)), List.Sorted keyLE x →
      (x.map Prod.fst).Nodup → List.Sorted keyLT x := by
    intro x hs hnx
    have hne : x.Pairwise (fun a b => a.1 ≠ b.1) := (List.pairwise_map).mp hnx
    exact (hs.and hne).imp (fun h => lt_of_le_of_ne h.1 h.2)
  have hnl : ((sortEntries l).map Prod.fst).Nodup :=
    ((List.perm_insertionSort keyLE l).map Prod.fst).symm.nodup hn
  have hnm : ((sortEntries m).map Prod.fst).Nodup :=
    (hp1.map Prod.fst).nodup hnl
  exact List.eq_of_perm_of_sorted hp1
    (strictOf _ (List.sorted_insertionSort keyLE l) hnl)
    (strictOf _ (List.sorted_insertionSort keyLE m) hnm)

mutual
/-- Key-permuting a well-formed document does not change its canonical
(`sort_keys=True`) form. -/
theorem keyPerm_canon : ∀ {a b : JVal}, KeyPerm a b → wfJson a = true → canon a = canon b
  | _, _, .null, _ => rfl
  | _, _, .bool _, _ => rfl
  | _, _, .num _, _ => rfl
  | _, _, .str _, _ => rfl
  | _, _, .arr h, hwf => by
      simp only [canon]
      exact congrArg JVal.arr (keyPermList_canon h (by simpa [wfJson] using hwf))
  | .obj entries, .obj entries2, .obj mid hpairs hperm, hwf => by
      simp only [canon]
      refine congrArg JVal.obj ?_
      have hconj : keysNodupB (entries.map Prod.fst) = true ∧ wfEntries entries = true := by
        simpa [wfJson] using hwf
      have h1 : canonEntries entries = canonEntries mid :=
        keyPermPairs_canon hpairs hconj.2
      have h2 : (canonEntries mid).Perm (canonEntries entries2) := by
        rw [canonEntries_eq_map, canonEntries_eq_map]
        exact hperm.map _
      have hn : ((canonEntries entries).map Prod.fst).Nodup := by
        rw [canonEntries_keys]
        exact (keysNodupB_iff _).mp hconj.1
      exact sortEntries_eq_of_perm (h1 ▸ h2) hn

/-- Pointwise version of `keyPerm_canon` for arrays. -/
theorem keyPermList_canon : ∀ {l m : List JVal}, KeyPermList l m → wfList l = true →
    canonList l = canonList m
  | _, _, .nil, _ => rfl
  | v :: rest, v2 :: rest2, .cons hv hrest, hwf => by
      have hconj : wfJson v = true ∧ wfList rest = true := by simpa [wfList] using hwf
      simp [canonList, keyPerm_canon hv hconj.1, keyPermList_canon hrest hconj.2]

/-- Pointwise version of `keyPerm_canon` for object entries. -/
theorem keyPermPairs_canon : ∀ {l m : List (String × JVal)}, KeyPermPairs l m →
    wfEntries l = true → canonEntries l = canonEntries m
  | _, _, .nil, _ => rfl
  | _, _, @KeyPermPairs.cons v v2 rest rest2 k hv hrest, hwf => by
      have hconj : wfJson v = true ∧ wfEntries rest = true := by simpa [wfEntries] using hwf
      simp [canonEntries, keyPerm_canon hv hconj.1, keyPermPairs_canon hrest hconj.2]
end

/-- Unfolding lemma for `lookupKey` on a cons cell. -/
theorem lookupKey_cons (k k2 : String) (v : JVal) (rest : List (String × JVal)) :
    lookupKey k ((k2, v) :: rest) = if k2 == k then some v else lookupKey k rest := by
  by_cases h : k2 == k <;> simp [lookupKey, List.find?, h]

/-- Python's `k in d` test agrees with `lookupKey` succeeding. -/
theorem any_key_eq_isSome (k : String) (l : List (String × JVal)) :
    l.any (fun e => e.1 == k) = (lookupKey k l).isSome := by
  induction l with
  | nil => simp [lookupKey]
  | cons e rest ih =>
      cases e with
      | mk k2 v => by_cases h : k2 == k <;> simp [lookupKey_cons, h, ih]

/-- Looking up a key in a duplicate-key-free dict is invariant under
reordering the entries. -/
theorem lookupKey_perm {l m : List (String × JVal)} (hp : l.Perm m)
    (hn : (l.map Prod.fst).Nodup) (k : String) : lookupKey k l = lookupKey k m := by
  induction hp with
  | nil => rfl
  | cons x _ ih =>
      cases x with
      | mk kx vx =>
          simp only [List.map_cons, List.nodup_cons] at hn
          by_cases h : kx == k <;> simp [lookupKey_cons, h, ih hn.2]
  | swap x y _ =>
      cases x with
      | mk kx vx =>
        cases y with
        | mk ky vy =>
            simp only [List.map_cons, List.nodup_cons, List.mem_cons] at hn
            have hne : ky ≠ kx := fun h => hn.1 (Or.inl h)
            by_cases h1 : kx == k
            · have h2 : (ky == k) = false := by
                simp only [beq_iff_eq] at h1 ⊢
                simp [h1 ▸ hne]
              simp [lookupKey_cons, h1, h2]
            · by_cases h2 : ky == k <;> simp [lookupKey_cons, h1, h2]
  | trans h1 _ ih1 ih2 =>
      exact (ih1 hn).trans (ih2 (((h1.map Prod.fst).nodup hn)))

/-- Under `KeyPermPairs`, lookups on the two sides succeed together, with
`KeyPerm`-related values. -/
theorem lookupKey_keyPermPairs : ∀ {l m : List (String × JVal)}, KeyPermPairs l m → ∀ k,
    (lookupKey k l = none ∧ lookupKey k m = none) ∨
    ∃ v v2, lookupKey k l = some v ∧ lookupKey k m = some v2 ∧ KeyPerm v v2
  | _, _, .nil, _ => Or.inl ⟨rfl, rfl⟩
  | _, _, @KeyPermPairs.cons v v2 rest rest2 k2 hv hrest, k => by
      by_cases h : k2 == k
      · exact Or.inr ⟨v, v2, by simp [lookupKey_cons, h], by simp [lookupKey_cons, h], hv⟩
      · simpa [lookupKey_cons, h] using lookupKey_keyPermPairs hrest k

/-- `KeyPermPairs` is preserved by filtering on a key-only predicate. -/
theorem keyPermPairs_filter (p : String × JVal → Bool)
    (hkey : ∀ k v v2, p (k, v) = p (k, v2)) :
    ∀ {l m : List (String × JVal)}, KeyPermPairs l m → KeyPermPairs (l.filter p) (m.filter p)
  | _, _, .nil => .nil
  | _, _, @KeyPermPairs.cons v v2 rest rest2 k hv hrest => by
      have hsame : p (k, v) = p (k, v2) := hkey k v v2
      by_cases h : p (k, v)
      · simpa [List.filter, h, hsame ▸ h] using
          KeyPermPairs.cons k hv (keyPermPairs_filter p hkey hrest)
      · have h2 : p (k, v) = false := by simpa using h
        simpa [List.filter, h2, hsame ▸ h2] using keyPermPairs_filter p hkey hrest

/-- `KeyPermPairs` is preserved by the in-place-update map of `setKey`. -/
theorem keyPermPairs_setKeyMap (k : String) {X X2 : JVal} (hX : KeyPerm X X2) :
    ∀ {l m : List (String × JVal)}, KeyPermPairs l m →
    KeyPermPairs (l.map (fun e => if e.1 == k then (k, X) else e))
      (m.map (fun e => if e.1 == k then (k, X2) else e))
  | _, _, .nil => .nil
  | _, _, @KeyPermPairs.cons v v2 rest rest2 k2 hv hrest => by
      by_cases h : k2 = k
      · subst h
        simpa using KeyPermPairs.cons k2 hX (keyPermPairs_setKeyMap k2 hX hrest)
      · simpa [h] using KeyPermPairs.cons k2 hv (keyPermPairs_setKeyMap k hX hrest)

/-- Filtering keeps `wfEntries`. -/
theorem wfEntries_filter (p : String × JVal → Bool) {l : List (String × JVal)}
    (hwf : wfEntries l = true) : wfEntries (l.filter p) = true := by
  induction l with
  | nil => simpa using hwf
  | cons e rest ih =>
      cases e with
      | mk k2 v =>
          have hconj : wfJson v = true ∧ wfEntries rest = true := by simpa [wfEntries] using hwf
          by_cases h : p (k2, v)
          · simp [List.filter_cons, h, wfEntries, hconj.1, ih hconj.2]
          · simp [List.filter_cons, h, ih hconj.2]

/-- The in-place-update map of `setKey` keeps `wfEntries` when the new value
is well-formed. -/
theorem wfEntries_setKeyMap (k : String) {X : JVal} (hX : wfJson X = true)
    {l : List (String × JVal)} (hwf : wfEntries l = true) :
    wfEntries (l.map (fun e => if e.1 == k then (k, X) else e)) = true := by
  induction l with
  | nil => simpa using hwf
  | cons e rest ih =>
      cases e with
      | mk k2 v =>
          have hconj : wfJson v = true ∧ wfEntries rest = true := by simpa [wfEntries] using hwf
          by_cases h : k2 = k
          · subst h
            rw [List.map_cons, if_pos (by simp)]
            simp only [wfEntries, Bool.and_eq_true]
            exact ⟨hX, ih hconj.2⟩
          · rw [List.map_cons, if_neg (by simpa using h)]
            simp only [wfEntries, Bool.and_eq_true]
            exact ⟨hconj.1, ih hconj.2⟩

/-- The in-place-update map of `setKey` keeps the key sequence. -/
theorem keys_setKeyMap (k : String) (X : JVal) (l : List (String × JVal)) :
    (l.map (fun e => if e.1 == k then (k, X) else e)).map Prod.fst = l.map Prod.fst := by
  induction l with
  | nil => rfl
  | cons e rest ih =>
      cases e with
      | mk k2 v =>
          by_cases h : k2 = k
          · subst h
            simp only [List.map_cons, beq_self_eq_true, if_true]
            rw [ih]
          · simp only [List.map_cons]
            rw [if_neg (by simpa using h), ih]

/-- Keys of a filtered entry list form a sublist of the original keys. -/
theorem keys_filter_sublist (p : String × JVal → Bool) (l : List (String × JVal)) :
    ((l.filter p).map Prod.fst).Sublist (l.map Prod.fst) :=
  (List.filter_sublist l).map Prod.fst

/-- A value looked up in a well-formed entry list is well-formed. -/
theorem wfJson_of_lookup {l : List (String × JVal)} {k : String} {v : JVal}
    (hwf : wfEntries l = true) (h : lookupKey k l = some v) : wfJson v = true := by
  induction l with
  | nil => simp [lookupKey] at h
  | cons e rest ih =>
      cases e with
      | mk k2 v2 =>
          have hconj : wfJson v2 = true ∧ wfEntries rest = true := by simpa [wfEntries] using hwf
          by_cases hk : k2 == k
          · rw [lookupKey_cons, if_pos hk] at h
            exact (Option.some_inj.mp h) ▸ hconj.1
          · rw [lookupKey_cons, if_neg hk] at h
            exact ih hconj.2 h

/-- Split object well-formedness into its two components. -/
theorem wf_obj_parts {d : List (String × JVal)} (hwf : wfJson (JVal.obj d) = true) :
    (d.map Prod.fst).Nodup ∧ wfEntries d = true := by
  have h : keysNodupB (d.map Prod.fst) = true ∧ wfEntries d = true := by
    simpa [wfJson] using hwf
  exact ⟨(keysNodupB_iff _).mp h.1, h.2⟩

/-- Assemble object well-formedness from its two components. -/
theorem wf_obj_of {l : List (String × JVal)} (hn : (l.map Prod.fst).Nodup)
    (he : wfEntries l = true) : wfJson (JVal.obj l) = true := by
  simp only [wfJson, Bool.and_eq_true]
  exact ⟨(keysNodupB_iff _).mpr hn, he⟩

/-- Filtering entries keeps object well-formedness. -/
theorem wf_obj_filter (p : String × JVal → Bool) {d : List (String × JVal)}
    (hwf : wfJson (JVal.obj d) = true) : wfJson (JVal.obj (d.filter p)) = true := by
  obtain ⟨hn, he⟩ := wf_obj_parts hwf
  exact wf_obj_of ((keys_filter_sublist p d).nodup hn) (wfEntries_filter p he)

/-- Cleaning commutes with key permutation: on a well-formed document,
`cleanDoc` fails on both sides together, or yields key-permuted and
well-formed cleaned documents. -/
theorem cleanDoc_keyPerm : ∀ {d d2 : List (String × JVal)},
    wfJson (JVal.obj d) = true → KeyPerm (JVal.obj d) (JVal.obj d2) →
    (cleanDoc d = none ∧ cleanDoc d2 = none) ∨
    ∃ f f2, cleanDoc d = some f ∧ cleanDoc d2 = some f2 ∧
      KeyPerm (JVal.obj f) (JVal.obj f2) ∧ wfJson (JVal.obj f) = true := by
  intro d d2 hwf hp
  cases hp with
  | obj mid hpairs hperm =>
    obtain ⟨hn, he⟩ := wf_obj_parts hwf
    have hkeys : d.map Prod.fst = mid.map Prod.fst := keyPermPairs_keys hpairs
    have hnmid : (mid.map Prod.fst).Nodup := hkeys ▸ hn
    have hlook2 : lookupKey "metadata" mid = lookupKey "metadata" d2 :=
      lookupKey_perm hperm hnmid "metadata"
    rcases lookupKey_keyPermPairs hpairs "metadata" with ⟨hnone, hnonem⟩ | ⟨v, vm, hv, hvm, hrel⟩
    · right
      refine ⟨popKey "status" d, popKey "status" d2, ?_, ?_, ?_, ?_⟩
      · simp [cleanDoc, hnone]
      · have : lookupKey "metadata" d2 = none := hlook2 ▸ hnonem
        simp [cleanDoc, this]
      · exact KeyPerm.obj (popKey "status" mid)
          (keyPermPairs_filter (fun e => e.1 != "status") (fun _ _ _ => rfl) hpairs)
          (hperm.filter _)
      · exact wf_obj_filter _ hwf
    · have hlookd2 : lookupKey "metadata" d2 = some vm := hlook2 ▸ hvm
      cases v with
      | obj m =>
          cases hrel with
          | obj midm hpairs2 hperm2 =>
            rename_i m2
            have hwfv : wfJson (JVal.obj m) = true := wfJson_of_lookup he hv
            have hps : KeyPermPairs (stripVolatile m) (stripVolatile midm) :=
              keyPermPairs_filter (fun e => e.1 != "creationTimestamp") (fun _ _ _ => rfl)
                (keyPermPairs_filter (fun e => e.1 != "managedFields") (fun _ _ _ => rfl)
                  (keyPermPairs_filter (fun e => e.1 != "generation") (fun _ _ _ => rfl)
                    (keyPermPairs_filter (fun e => e.1 != "resourceVersion") (fun _ _ _ => rfl) hpairs2)))
            have hpm : (stripVolatile midm).Perm (stripVolatile m2) :=
              (((hperm2.filter _).filter _).filter _).filter _
            have hX : KeyPerm (JVal.obj (stripVolatile m)) (JVal.obj (stripVolatile m2)) :=
              KeyPerm.obj (stripVolatile midm) hps hpm
            have hwfX : wfJson (JVal.obj (stripVolatile m)) = true :=
              wf_obj_filter _ (wf_obj_filter _ (wf_obj_filter _ (wf_obj_filter _ hwfv)))
            have hany_d : d.any (fun e => e.1 == "metadata") = true := by
              rw [any_key_eq_isSome, hv]
              rfl
            have hany_mid : mid.any (fun e => e.1 == "metadata") = true := by
              rw [any_key_eq_isSome, hvm]
              rfl
            have hany_d2 : d2.any (fun e => e.1 == "metadata") = true := by
              rw [any_key_eq_isSome, hlookd2]
              rfl
            have hset_d : setKey "metadata" (JVal.obj (stripVolatile m)) d =
                d.map (fun e => if e.1 == "metadata" then ("metadata", JVal.obj (stripVolatile m)) else e) := by
              rw [setKey, if_pos hany_d]
            have hset_mid : setKey "metadata" (JVal.obj (stripVolatile m2)) mid =
                mid.map (fun e => if e.1 == "metadata" then ("metadata", JVal.obj (stripVolatile m2)) else e) := by
              rw [setKey, if_pos hany_mid]
            have hset_d2 : setKey "metadata" (JVal.obj (stripVolatile m2)) d2 =
                d2.map (fun e => if e.1 == "metadata" then ("metadata", JVal.obj (stripVolatile m2)) else e) := by
              rw [setKey, if_pos hany_d2]
            right
            refine ⟨popKey "status" (setKey "metadata" (JVal.obj (stripVolatile m)) d),
                    popKey "status" (setKey "metadata" (JVal.obj (stripVolatile m2)) d2),
                    by simp [cleanDoc, hv], by simp [cleanDoc, hlookd2], ?_, ?_⟩
            · refine KeyPerm.obj
                (popKey "status" (setKey "metadata" (JVal.obj (stripVolatile m2)) mid)) ?_ ?_
              · rw [hset_d, hset_mid]
                exact keyPermPairs_filter (fun e => e.1 != "status") (fun _ _ _ => rfl)
                  (keyPermPairs_setKeyMap "metadata" hX hpairs)
              · rw [hset_mid, hset_d2]
                exact (hperm.map _).filter _
            · rw [hset_d]
              refine wf_obj_of ?_ ?_
              · refine (keys_filter_sublist _ _).nodup ?_
                rw [keys_setKeyMap]
                exact hn
              · exact wfEntries_filter _ (wfEntries_setKeyMap _ hwfX he)
      | null =>
          cases hrel
          exact Or.inl ⟨by simp [cleanDoc, hv], by simp [cleanDoc, hlookd2]⟩
      | bool b =>
          cases hrel
          exact Or.inl ⟨by simp [cleanDoc, hv], by simp [cleanDoc, hlookd2]⟩
      | num n =>
          cases hrel
          exact Or.inl ⟨by simp [cleanDoc, hv], by simp [cleanDoc, hlookd2]⟩
      | str s =>
          cases hrel
          exact Or.inl ⟨by simp [cleanDoc, hv], by simp [cleanDoc, hlookd2]⟩
      | arr items =>
          cases hrel
          exact Or.inl ⟨by simp [cleanDoc, hv], by simp [cleanDoc, hlookd2]⟩

/-- The resource hash is invariant under key permutation of a well-formed
document. -/
theorem calcResourceHash_keyPerm {d d2 : List (String × JVal)}
    (hwf : wfJson (JVal.obj d) = true) (hp : KeyPerm (JVal.obj d) (JVal.obj d2)) :
    calcResourceHash d2 = calcResourceHash d := by
  rcases cleanDoc_keyPerm hwf hp with ⟨h1, h2⟩ | ⟨f, f2, h1, h2, hrel, hwff⟩
  · simp [calcResourceHash, h1, h2]
  · have hdump : dumps (JVal.obj f2) = dumps (JVal.obj f) := by
      unfold dumps
      rw [keyPerm_canon hrel hwff]
    simp [calcResourceHash, h1, h2, hdump]

/-- `hexDigits` always renders exactly the requested width. -/
theorem hexDigits_length (w v : Nat) : (hexDigits w v).length = w := by
  induction w generalizing v with
  | zero => rfl
  | succ n ih => simp [hexDigits, ih]

/-- Each single hex digit is one of the sixteen lower-case hex characters. -/
theorem hexDigitChar_mem_of_lt : ∀ n < 16, hexDigitChar n ∈ "0123456789abcdef".data := by
  decide

/-- Every character rendered by `hexDigits` is a lower-case hex character. -/
theorem hexDigits_subset (w v : Nat) : ∀ c ∈ hexDigits w v, c ∈ "0123456789abcdef".data := by
  induction w generalizing v with
  | zero =>
      intro c hc
      simp [hexDigits] at hc
  | succ n ih =>
      intro c hc
      rw [hexDigits] at hc
      rcases List.mem_append.mp hc with h | h
      · exact ih _ c h
      · have : c = hexDigitChar (v % 16) := by simpa using h
        exact this ▸ hexDigitChar_mem_of_lt _ (Nat.mod_lt _ (by norm_num))

/-- The character list underlying `String.mk`. -/
theorem data_mk (l : List Char) : (String.mk l).data = l := rfl

/-- A SHA-256 hex digest always has exactly 64 characters. -/
theorem sha256hex_length (msg : List Nat) : (sha256hex msg).length = 64 := by
  simp [sha256hex, String.length, hex8, hexDigits_length]

/-- Every character of a SHA-256 hex digest is a lower-case hex digit. -/
theorem sha256hex_chars (msg : List Nat) :
    ∀ c ∈ (sha256hex msg).data, c ∈ "0123456789abcdef".data := by
  intro c hc
  simp only [sha256hex, data_mk, List.mem_append, hex8] at hc
  rcases hc with ((((((h | h) | h) | h) | h) | h) | h) | h <;> exact hexDigits_subset _ _ _ h

/-- C1: for every well-formed resource document, the canonical hash of
`_calculate_resource_hash` is deterministic (hashing twice gives the same
result), is a fixed-length (64-character) lower-case hex string whenever it
is produced, and is unchanged when the document's nested mappings are
reordered (same key/value pairs at every level). -/
theorem C1_hash_determinism_and_key_order_independence
    (d d2 : List (String × JVal))
    (hwf : wfJson (JVal.obj d) = true)
    (hperm : KeyPerm (JVal.obj d) (JVal.obj d2)) :
    calcResourceHash d = calcResourceHash d ∧
    calcResourceHash d2 = calcResourceHash d ∧
    ∀ s, calcResourceHash d = some s →
      s.length = 64 ∧ ∀ c ∈ s.data, c ∈ "0123456789abcdef".data := by
  refine ⟨rfl, calcResourceHash_keyPerm hwf hperm, ?_⟩
  intro s hs
  rw [calcResourceHash] at hs
  obtain ⟨f, hf, hfn⟩ := Option.map_eq_some'.mp hs
  subst hfn
  exact ⟨sha256hex_length _, sha256hex_chars _⟩

/-- Concrete resource document for the C1 witness. -/
def c1DocA : List (String × JVal) :=
  [("kind", JVal.str "Pod"),
   ("metadata", JVal.obj [("name", JVal.str "x"),
     ("labels", JVal.obj [("app", JVal.str "web"), ("tier", JVal.str "front")])])]

/-- The same document with the nested label map and the top level reordered. -/
def c1DocB : List (String × JVal) :=
  [("metadata", JVal.obj [("name", JVal.str "x"),
     ("labels", JVal.obj [("tier", JVal.str "front"), ("app", JVal.str "web")])]),
   ("kind", JVal.str "Pod")]

/-- `c1DocB` is a key permutation of `c1DocA`. -/
theorem c1Perm : KeyPerm (JVal.obj c1DocA) (JVal.obj c1DocB) :=
  KeyPerm.obj
    [("kind", JVal.str "Pod"),
     ("metadata", JVal.obj [("name", JVal.str "x"),
       ("labels", JVal.obj [("tier", JVal.str "front"), ("app", JVal.str "web")])])]
    (KeyPermPairs.cons "kind" (keyPerm_refl _)
      (KeyPermPairs.cons "metadata"
        (KeyPerm.obj
          [("name", JVal.str "x"),
           ("labels", JVal.obj [("tier", JVal.str "front"), ("app", JVal.str "web")])]
          (KeyPermPairs.cons "name" (keyPerm_refl _)
            (KeyPermPairs.cons "labels"
              (KeyPerm.obj [("app", JVal.str "web"), ("tier", JVal.str "front")]
                (keyPermPairs_refl _)
                (List.Perm.swap ("tier", JVal.str "front") ("app", JVal.str "web") []))
              KeyPermPairs.nil))
          (List.Perm.refl _))
        KeyPermPairs.nil))
    (List.Perm.swap
      ("metadata", JVal.obj [("name", JVal.str "x"),
        ("labels", JVal.obj [("tier", JVal.str "front"), ("app", JVal.str "web")])])
      ("kind", JVal.str "Pod") [])

/-- Witness for C1 at a concrete document and a concrete nested reordering. -/
theorem C1_hash_determinism_and_key_order_independence_witness :
    calcResourceHash c1DocA = calcResourceHash c1DocA ∧
    calcResourceHash c1DocB = calcResourceHash c1DocA ∧
    ∀ s, calcResourceHash c1DocA = some s →
      s.length = 64 ∧ ∀ c ∈ s.data, c ∈ "0123456789abcdef".data :=
  C1_hash_determinism_and_key_order_independence c1DocA c1DocB (by rfl) c1Perm


/-- Popping one key does not affect lookups of another key. -/
theorem lookupKey_popKey_other {a b : String} (hne : a ≠ b) (l : List (String × JVal)) :
    lookupKey b (popKey a l) = lookupKey b l := by
  induction l with
  | nil => rfl
  | cons e rest ih =>
      cases e with
      | mk k2 v2 =>
          by_cases h : k2 = a
          · subst h
            rw [popKey, List.filter_cons, if_neg (by simp)]
            rw [lookupKey_cons, if_neg (by simpa using hne)]
            exact ih
          · rw [popKey, List.filter_cons, if_pos (by simpa using h)]
            rw [lookupKey_cons, lookupKey_cons]
            by_cases h2 : k2 == b
            · rw [if_pos h2, if_pos h2]
            · rw [if_neg h2, if_neg h2]
              exact ih

/-- Any-key test on a cons cell, placed at the Bool-equality level. -/
theorem any_key_cons (k k2 : String) (v : JVal) (rest : List (String × JVal)) :
    ((k2, v) :: rest).any (fun e => e.1 == k) = ((k2 == k) || rest.any (fun e => e.1 == k)) := by
  simp [List.any_cons]

/-- After `d[k] = v` on a dict that contains `k`, the update is the in-place
map and lookup of `k` yields `v`. -/
theorem lookupKey_mapSet (k : String) (v : JVal) (l : List (String × JVal))
    (hany : l.any (fun e => e.1 == k) = true) :
    lookupKey k (l.map (fun e => if e.1 == k then (k, v) else e)) = some v := by
  induction l with
  | nil => simp at hany
  | cons e rest ih =>
      cases e with
      | mk k2 v2 =>
          by_cases h : k2 = k
          · subst h
            rw [List.map_cons, if_pos (by simp)]
            simp [lookupKey_cons]
          · rw [List.map_cons, if_neg (by simpa using h)]
            rw [lookupKey_cons, if_neg (by simpa using h)]
            refine ih ?_
            rw [any_key_cons] at hany
            simpa [h] using hany

/-- Lookup distributes over appending a single entry. -/
theorem lookupKey_append_single (k : String) (e : String × JVal) (l : List (String × JVal)) :
    lookupKey k (l ++ [e]) = (lookupKey k l).or (lookupKey k [e]) := by
  induction l with
  | nil => simp [lookupKey]
  | cons f rest ih =>
      cases f with
      | mk k2 v2 =>
          rw [List.cons_append, lookupKey_cons, lookupKey_cons]
          by_cases h : k2 == k
          · rw [if_pos h, if_pos h]
            rfl
          · rw [if_neg h, if_neg h]
            exact ih

/-- After `d[k] = v`, looking up `k` yields `v`. -/
theorem lookupKey_setKey_same (k : String) (v : JVal) (l : List (String × JVal)) :
    lookupKey k (setKey k v l) = some v := by
  rw [setKey]
  by_cases hany : l.any (fun e => e.1 == k) = true
  · rw [if_pos hany]
    exact lookupKey_mapSet k v l hany
  · rw [if_neg hany]
    have hnone : lookupKey k l = none := by
      cases hlk : lookupKey k l with
      | none => rfl
      | some x =>
          exfalso
          apply hany
          rw [any_key_eq_isSome, hlk]
          rfl
    rw [lookupKey_append_single, hnone]
    simp [lookupKey_cons]

/-- After `d[a] = v`, lookups of another key are unchanged. -/
theorem lookupKey_setKey_other {a b : String} (hne : a ≠ b) (v : JVal)
    (l : List (String × JVal)) : lookupKey b (setKey a v l) = lookupKey b l := by
  rw [setKey]
  by_cases hany : l.any (fun e => e.1 == a) = true
  · rw [if_pos hany]
    clear hany
    induction l with
    | nil => rfl
    | cons e rest ih =>
        cases e with
        | mk k2 v2 =>
            by_cases h : k2 = a
            · subst h
              rw [List.map_cons, if_pos (by simp)]
              rw [lookupKey_cons, lookupKey_cons,
                if_neg (by simpa using hne), if_neg (by simpa using hne)]
              exact ih
            · rw [List.map_cons, if_neg (by simpa using h)]
              rw [lookupKey_cons, lookupKey_cons]
              by_cases h2 : k2 == b
              · rw [if_pos h2, if_pos h2]
              · rw [if_neg h2, if_neg h2]
                exact ih
  · rw [if_neg hany]
    rw [lookupKey_append_single]
    rw [lookupKey_cons, if_neg (by simpa using hne)]
    simp [lookupKey]

/-- `dict.pop` of the same key is idempotent. -/
theorem popKey_idem (k : String) (l : List (String × JVal)) :
    popKey k (popKey k l) = popKey k l :=
  List.filter_eq_self.mpr (fun a ha => (List.mem_filter.mp ha).2)

/-- Pops of two keys commute. -/
theorem popKey_comm (a b : String) (l : List (String × JVal)) :
    popKey a (popKey b l) = popKey b (popKey a l) :=
  List.filter_comm _ _ l

/-- The any-key test is unchanged by popping a different key. -/
theorem any_key_popKey_other {a b : String} (hne : a ≠ b) (l : List (String × JVal)) :
    (popKey a l).any (fun e => e.1 == b) = l.any (fun e => e.1 == b) := by
  rw [any_key_eq_isSome, any_key_eq_isSome, lookupKey_popKey_other hne]

/-- Popping a key absorbs a preceding `setKey` of that same key. -/
theorem popKey_setKey_same (k : String) (v : JVal) (l : List (String × JVal)) :
    popKey k (setKey k v l) = popKey k l := by
  rw [setKey]
  by_cases hany : l.any (fun e => e.1 == k) = true
  · rw [if_pos hany]
    rw [popKey, popKey, List.map_filter]
    have h1 : l.filter ((fun e : String × JVal => e.1 != k) ∘
        (fun e => if e.1 == k then (k, v) else e)) = l.filter (fun e => e.1 != k) := by
      refine List.filter_congr' (fun x hx => ?_)
      by_cases h : x.1 = k
      · simp [Function.comp, h]
      · simp [Function.comp, h]
    rw [h1]
    conv_rhs => rw [← List.map_id (l.filter (fun e => e.1 != k))]
    refine List.map_congr_left (fun x hx => ?_)
    have hp : (x.1 != k) = true := (List.mem_filter.mp hx).2
    have hk : (x.1 == k) = false := by simpa using hp
    simp [hk]
  · rw [if_neg hany, popKey, List.filter_append]
    rw [show List.filter (fun e : String × JVal => e.1 != k) [(k, v)] = [] by simp]
    rw [List.append_nil]
    rfl

/-- Popping key `a` commutes with setting a different key `b`. -/
theorem popKey_setKey_comm {a b : String} (hne : a ≠ b) (v : JVal)
    (l : List (String × JVal)) : popKey a (setKey b v l) = setKey b v (popKey a l) := by
  rw [setKey, setKey, any_key_popKey_other hne]
  by_cases hany : l.any (fun e => e.1 == b) = true
  · rw [if_pos hany, if_pos hany]
    rw [popKey, popKey, List.map_filter]
    congr 1
    refine List.filter_congr' (fun x hx => ?_)
    by_cases h : x.1 == b
    · have hxb : x.1 = b := by simpa using h
      have hba : (b != a) = true := by simpa using fun hc => hne hc.symm
      simp [Function.comp, h, hxb, hba]
    · simp [Function.comp, h]
  · rw [if_neg hany, if_neg hany, popKey, List.filter_append]
    have hba : List.filter (fun e : String × JVal => e.1 != a) [(b, v)] = [(b, v)] := by
      simp
      exact fun hc => hne hc.symm
    rw [hba]
    rfl

/-- Setting the same key twice keeps only the second value. -/
theorem setKey_setKey_same (k : String) (x y : JVal) (l : List (String × JVal)) :
    setKey k y (setKey k x l) = setKey k y l := by
  by_cases hany : l.any (fun e => e.1 == k) = true
  · have hmap : setKey k x l = l.map (fun e => if e.1 == k then (k, x) else e) := by
      rw [setKey, if_pos hany]
    have hany2 : (l.map (fun e => if e.1 == k then (k, x) else e)).any
        (fun e => e.1 == k) = true := by
      rw [← hmap, any_key_eq_isSome, lookupKey_setKey_same]
      rfl
    rw [hmap, setKey, if_pos hany2, setKey, if_pos hany, List.map_map]
    refine List.map_congr_left (fun e he => ?_)
    by_cases h : e.1 == k
    · simp [Function.comp, h]
    · simp [Function.comp, h]
  · have happ : setKey k x l = l ++ [(k, x)] := by
      rw [setKey, if_neg hany]
    have hany2 : (l ++ [(k, x)]).any (fun e => e.1 == k) = true := by simp
    have hkeys : ∀ e ∈ l, (e.1 == k) = false := by
      intro e he
      by_contra hc
      exact hany (List.any_eq_true.mpr ⟨e, he, by simpa using hc⟩)
    rw [happ, setKey, if_pos hany2, setKey, if_neg hany, List.map_append]
    congr 1
    · conv_rhs => rw [← List.map_id l]
      refine List.map_congr_left (fun e he => ?_)
      simp [hkeys e he]
    · simp

/-- Setting (adding or overwriting) any of the four volatile metadata fields
does not change the stripped metadata. -/
theorem stripVolatile_setKey (k : String)
    (hk : k ∈ ["resourceVersion", "generation", "managedFields", "creationTimestamp"])
    (v : JVal) (m : List (String × JVal)) :
    stripVolatile (setKey k v m) = stripVolatile m := by
  simp only [List.mem_cons, List.not_mem_nil, or_false] at hk
  rcases hk with rfl | rfl | rfl | rfl
  · rw [stripVolatile, stripVolatile, popKey_setKey_same]
  · rw [stripVolatile, stripVolatile,
      popKey_setKey_comm (by decide), popKey_setKey_same]
  · rw [stripVolatile, stripVolatile,
      popKey_setKey_comm (by decide), popKey_setKey_comm (by decide), popKey_setKey_same]
  · rw [stripVolatile, stripVolatile,
      popKey_setKey_comm (by decide), popKey_setKey_comm (by decide),
      popKey_setKey_comm (by decide), popKey_setKey_same]

/-- Removing any of the four volatile metadata fields does not change the
stripped metadata. -/
theorem stripVolatile_popKey (k : String)
    (hk : k ∈ ["resourceVersion", "generation", "managedFields", "creationTimestamp"])
    (m : List (String × JVal)) :
    stripVolatile (popKey k m) = stripVolatile m := by
  simp only [List.mem_cons, List.not_mem_nil, or_false] at hk
  rcases hk with rfl | rfl | rfl | rfl
  · rw [stripVolatile, stripVolatile, popKey_idem]
  · rw [stripVolatile, stripVolatile,
      popKey_comm "resourceVersion" "generation", popKey_idem]
  · rw [stripVolatile, stripVolatile,
      popKey_comm "resourceVersion" "managedFields",
      popKey_comm "generation" "managedFields", popKey_idem]
  · rw [stripVolatile, stripVolatile,
      popKey_comm "resourceVersion" "creationTimestamp",
      popKey_comm "generation" "creationTimestamp",
      popKey_comm "managedFields" "creationTimestamp", popKey_idem]

/-- Replacing the metadata mapping by one with the same post-strip content
does not change the cleaned document. -/
theorem cleanDoc_setMeta {d m m2 : List (String × JVal)}
    (hm : lookupKey "metadata" d = some (JVal.obj m))
    (hstrip : stripVolatile m2 = stripVolatile m) :
    cleanDoc (setKey "metadata" (JVal.obj m2) d) = cleanDoc d := by
  have h2 : lookupKey "metadata" (setKey "metadata" (JVal.obj m2) d) = some (JVal.obj m2) :=
    lookupKey_setKey_same _ _ _
  simp only [cleanDoc, hm, h2]
  rw [hstrip, setKey_setKey_same]

/-- Setting (adding or overwriting) the top-level status block does not
change the cleaned document. -/
theorem cleanDoc_setStatus (v : JVal) (d : List (String × JVal)) :
    cleanDoc (setKey "status" v d) = cleanDoc d := by
  have hl : lookupKey "metadata" (setKey "status" v d) = lookupKey "metadata" d :=
    lookupKey_setKey_other (by decide) v d
  cases hm : lookupKey "metadata" d with
  | none =>
      simp only [cleanDoc, hl, hm]
      rw [popKey_setKey_same]
  | some x =>
      cases x with
      | obj m =>
          simp only [cleanDoc, hl, hm]
          rw [popKey_setKey_comm (by decide), popKey_setKey_same,
            ← popKey_setKey_comm (by decide)]
      | null => simp [cleanDoc, hl, hm]
      | bool b => simp [cleanDoc, hl, hm]
      | num n => simp [cleanDoc, hl, hm]
      | str s => simp [cleanDoc, hl, hm]
      | arr items => simp [cleanDoc, hl, hm]

/-- Removing the top-level status block does not change the cleaned document. -/
theorem cleanDoc_popStatus (d : List (String × JVal)) :
    cleanDoc (popKey "status" d) = cleanDoc d := by
  have hl : lookupKey "metadata" (popKey "status" d) = lookupKey "metadata" d :=
    lookupKey_popKey_other (by decide) d
  cases hm : lookupKey "metadata" d with
  | none =>
      simp only [cleanDoc, hl, hm]
      rw [popKey_idem]
  | some x =>
      cases x with
      | obj m =>
          simp only [cleanDoc, hl, hm]
          rw [popKey_setKey_comm (by decide), popKey_idem, ← popKey_setKey_comm (by decide)]
      | null => simp [cleanDoc, hl, hm]
      | bool b => simp [cleanDoc, hl, hm]
      | num n => simp [cleanDoc, hl, hm]
      | str s => simp [cleanDoc, hl, hm]
      | arr items => simp [cleanDoc, hl, hm]

/-- C2: modifying only `metadata.resourceVersion`, `metadata.generation`,
`metadata.managedFields`, `metadata.creationTimestamp` (setting, adding or
removing them) or the top-level `status` block yields the same canonical
hash as the original document, and a document with none of these fields
still hashes successfully. -/
theorem C2_volatile_field_independence (d : List (String × JVal)) :
    (∀ m, lookupKey "metadata" d = some (JVal.obj m) →
      (∀ k, k ∈ ["resourceVersion", "generation", "managedFields", "creationTimestamp"] →
        (∀ v, calcResourceHash (setKey "metadata" (JVal.obj (setKey k v m)) d) =
            calcResourceHash d) ∧
        calcResourceHash (setKey "metadata" (JVal.obj (popKey k m)) d) =
          calcResourceHash d) ∧
      (calcResourceHash d).isSome = true) ∧
    (∀ v, calcResourceHash (setKey "status" v d) = calcResourceHash d) ∧
    calcResourceHash (popKey "status" d) = calcResourceHash d ∧
    (lookupKey "metadata" d = none → (calcResourceHash d).isSome = true) := by
  refine ⟨?_, ?_, ?_, ?_⟩
  · intro m hm
    refine ⟨fun k hk => ⟨fun v => ?_, ?_⟩, ?_⟩
    · rw [calcResourceHash, calcResourceHash,
        cleanDoc_setMeta hm (stripVolatile_setKey k hk v m)]
    · rw [calcResourceHash, calcResourceHash,
        cleanDoc_setMeta hm (stripVolatile_popKey k hk m)]
    · simp [calcResourceHash, cleanDoc, hm]
  · intro v
    rw [calcResourceHash, calcResourceHash, cleanDoc_setStatus]
  · rw [calcResourceHash, calcResourceHash, cleanDoc_popStatus]
  · intro hm
    simp [calcResourceHash, cleanDoc, hm]

/-- Metadata of the concrete C2 witness document (the spec's Scenario 2). -/
def c2Meta : List (String × JVal) :=
  [("name", JVal.str "x"), ("resourceVersion", JVal.str "1")]

/-- Concrete document for the C2 witness. -/
def c2Doc : List (String × JVal) :=
  [("kind", JVal.str "Pod"), ("metadata", JVal.obj c2Meta),
   ("status", JVal.obj [("phase", JVal.str "Running")])]

/-- Witness for C2 at a concrete document: bumping `resourceVersion`,
removing an absent `generation`, overwriting and removing `status` all keep
the hash, which exists. -/
theorem C2_volatile_field_independence_witness :
    calcResourceHash (setKey "metadata"
      (JVal.obj (setKey "resourceVersion" (JVal.str "999") c2Meta)) c2Doc) =
      calcResourceHash c2Doc ∧
    calcResourceHash (setKey "metadata" (JVal.obj (popKey "generation" c2Meta)) c2Doc) =
      calcResourceHash c2Doc ∧
    calcResourceHash (setKey "status" (JVal.obj [("phase", JVal.str "Failed")]) c2Doc) =
      calcResourceHash c2Doc ∧
    calcResourceHash (popKey "status" c2Doc) = calcResourceHash c2Doc ∧
    (calcResourceHash c2Doc).isSome = true := by
  obtain ⟨hA, hB, hC, _⟩ := C2_volatile_field_independence c2Doc
  obtain ⟨hK, hS⟩ := hA c2Meta rfl
  exact ⟨(hK "resourceVersion" (by simp)).1 _, (hK "generation" (by simp)).2, hB _, hC, hS⟩

/-- Python runtime values for the heap-level model of
`_calculate_resource_hash`: primitives are immutable; dicts and lists live
on the heap behind references. -/
inductive PVal where
  | pynone : PVal
  | bool (b : Bool) : PVal
  | int (n : Int) : PVal
  | str (s : String) : PVal
  | ref (a : Nat) : PVal
deriving DecidableEq

/-- A heap object: a dict (insertion-ordered entries) or a list. -/
inductive PObj where
  | dict (entries : List (String × PVal)) : PObj
  | list (items : List PVal) : PObj
deriving DecidableEq

/-- The Python heap: addresses mapped to container objects. -/
abbrev Heap := List (Nat × PObj)

/-- Read a heap address. -/
def heapGet (h : Heap) (a : Nat) : Option PObj :=
  match h.find? (fun e => e.1 == a) with
  | some e => some e.2
  | none => none

/-- Mutate the object stored at a heap address. -/
def heapSet (h : Heap) (a : Nat) (o : PObj) : Heap :=
  h.map (fun e => if e.1 == a then (a, o) else e)

/-- An address not yet used by the heap (CPython allocates fresh objects at
fresh addresses). -/
def heapFresh (h : Heap) : Nat := (h.map Prod.fst).foldr max 0 + 1

/-- Heap-level dict lookup (`d[k]` on entry lists of `PVal`). -/
def pLookup (k : String) (l : List (String × PVal)) : Option PVal :=
  match l.find? (fun e => e.1 == k) with
  | some e => some e.2
  | none => none

/-- Heap-level `dict.pop(k, None)`. -/
def pPop (k : String) (l : List (String × PVal)) : List (String × PVal) :=
  l.filter (fun e => e.1 != k)

/-- Heap-level `d[k] = v`. -/
def pSet (k : String) (v : PVal) (l : List (String × PVal)) : List (String × PVal) :=
  if l.any (fun e => e.1 == k) then l.map (fun e => if e.1 == k then (k, v) else e)
  else l ++ [(k, v)]

/-- Heap-level model of the mutating steps of
`DatabaseService._calculate_resource_hash` (src/database/service.py:315-324):
`filtered = dict(resource_data)` allocates a fresh shallow copy (sharing the
nested references); `metadata = dict(filtered["metadata"])` allocates a
fresh copy of the metadata dict; the four `metadata.pop(...)` calls shape
that fresh copy; `filtered["metadata"] = metadata` and
`filtered.pop("status", None)` mutate the fresh `filtered` only.  The
`json.dumps`/`sha256` of lines 325-326 only read the heap, so the returned
heap is the function's net effect on memory.  `none` models the `TypeError`
Python raises when a present `metadata` is not a dict. -/
def calcHashHeap (h : Heap) (d : Nat) : Option Heap :=
  match heapGet h d with
  | some (PObj.dict entries) =>
    match pLookup "metadata" entries with
    | none =>
        some (heapSet (h ++ [(heapFresh h, PObj.dict entries)]) (heapFresh h)
          (PObj.dict (pPop "status" entries)))
    | some (PVal.ref ma) =>
        match heapGet (h ++ [(heapFresh h, PObj.dict entries)]) ma with
        | some (PObj.dict mentries) =>
            some (heapSet
              ((h ++ [(heapFresh h, PObj.dict entries)]) ++
                [(heapFresh (h ++ [(heapFresh h, PObj.dict entries)]),
                  PObj.dict (pPop "creationTimestamp" (pPop "managedFields"
                    (pPop "generation" (pPop "resourceVersion" mentries)))))])
              (heapFresh h)
              (PObj.dict (pPop "status" (pSet "metadata"
                (PVal.ref (heapFresh (h ++ [(heapFresh h, PObj.dict entries)]))) entries))))
        | _ => none
    | some _ => none
  | _ => none

/-- Every member of a list is bounded by its max-fold. -/
theorem le_foldr_max (a : Nat) (l : List Nat) (ha : a ∈ l) : a ≤ l.foldr max 0 := by
  induction l with
  | nil => cases ha
  | cons x rest ih =>
      rcases List.mem_cons.mp ha with rfl | hmem
      · exact le_max_left _ _
      · exact le_trans (ih hmem) (le_max_right _ _)

/-- A live address is never the fresh address. -/
theorem ne_heapFresh {a : Nat} {h : Heap} (ha : a ∈ h.map Prod.fst) : a ≠ heapFresh h := by
  have := le_foldr_max a (h.map Prod.fst) ha
  rw [heapFresh]
  omega

/-- Appending a fresh object does not change reads of other addresses. -/
theorem heapGet_append_single {a b : Nat} (hne : a ≠ b) (h : Heap) (o : PObj) :
    heapGet (h ++ [(b, o)]) a = heapGet h a := by
  induction h with
  | nil =>
      simp only [List.nil_append]
      rw [heapGet, List.find?]
      have : (b == a) = false := by simpa using fun hc => hne hc.symm
      rw [this]
      rfl
  | cons e rest ih =>
      cases e with
      | mk b2 o2 =>
          rw [List.cons_append, heapGet, heapGet, List.find?, List.find?]
          by_cases hb : b2 == a
          · rw [hb]
          · rw [Bool.not_eq_true] at hb
            rw [hb]
            exact ih

/-- Writing one address does not change reads of other addresses. -/
theorem heapGet_heapSet_other {a b : Nat} (hne : a ≠ b) (h : Heap) (o : PObj) :
    heapGet (heapSet h b o) a = heapGet h a := by
  induction h with
  | nil => rfl
  | cons e rest ih =>
      cases e with
      | mk b2 o2 =>
          by_cases hb : b2 = b
          · subst hb
            rw [heapSet, List.map_cons, if_pos (by simp)]
            rw [heapGet, heapGet, List.find?, List.find?]
            have hb2 : (b2 == a) = false := by simpa using fun hc => hne hc.symm
            rw [hb2]
            exact ih
          · rw [heapSet, List.map_cons, if_neg (by simpa using hb)]
            rw [heapGet, heapGet, List.find?, List.find?]
            by_cases h2 : b2 == a
            · rw [h2]
            · rw [Bool.not_eq_true] at h2
              rw [h2]
              exact ih

/-- C10: computing the resource hash leaves the caller's document unchanged:
after `_calculate_resource_hash` returns, every heap object that existed
before the call — the document dict, its metadata dict, its status block,
anything reachable from them — reads back exactly as before, because the
function strips volatile fields from fresh shallow copies rather than from
the caller's dictionaries. -/
theorem C10_hash_leaves_document_unchanged
    (h : Heap) (d : Nat) (hFin : Heap) (hrun : calcHashHeap h d = some hFin) :
    ∀ a ∈ h.map Prod.fst, heapGet hFin a = heapGet h a := by
  intro a ha
  have hne1 : a ≠ heapFresh h := ne_heapFresh ha
  rw [calcHashHeap] at hrun
  cases hd : heapGet h d with
  | none => simp [hd] at hrun
  | some o =>
      cases o with
      | list items => simp [hd] at hrun
      | dict entries =>
          have ha1 : a ∈ (h ++ [(heapFresh h, PObj.dict entries)]).map Prod.fst := by
            rw [List.map_append]
            exact List.mem_append.mpr (Or.inl ha)
          have hne2 : a ≠ heapFresh (h ++ [(heapFresh h, PObj.dict entries)]) :=
            ne_heapFresh ha1
          cases hm : pLookup "metadata" entries with
          | none =>
              simp only [hd, hm, Option.some.injEq] at hrun
              rw [← hrun, heapGet_heapSet_other hne1, heapGet_append_single hne1]
          | some mv =>
              cases mv with
              | ref ma =>
                  cases hma : heapGet (h ++ [(heapFresh h, PObj.dict entries)]) ma with
                  | none => simp [hd, hm, hma] at hrun
                  | some mo =>
                      cases mo with
                      | list items => simp [hd, hm, hma] at hrun
                      | dict mentries =>
                          simp only [hd, hm, hma, Option.some.injEq] at hrun
                          rw [← hrun, heapGet_heapSet_other hne1,
                            heapGet_append_single hne2, heapGet_append_single hne1]
              | pynone => simp [hd, hm] at hrun
              | bool b => simp [hd, hm] at hrun
              | int n => simp [hd, hm] at hrun
              | str s => simp [hd, hm] at hrun

/-- Concrete heap for the C10 witness: a document dict at address 0 whose
metadata and status dicts live at addresses 1 and 2. -/
def c10Heap : Heap :=
  [(0, PObj.dict [("kind", PVal.str "Pod"), ("metadata", PVal.ref 1), ("status", PVal.ref 2)]),
   (1, PObj.dict [("name", PVal.str "x"), ("resourceVersion", PVal.str "1")]),
   (2, PObj.dict [("phase", PVal.str "Running")])]

/-- The heap after hashing the document at address 0: the original objects
at addresses 0, 1 and 2 are untouched; the stripped copies live at the
fresh addresses 3 and 4. -/
def c10HeapAfter : Heap :=
  [(0, PObj.dict [("kind", PVal.str "Pod"), ("metadata", PVal.ref 1), ("status", PVal.ref 2)]),
   (1, PObj.dict [("name", PVal.str "x"), ("resourceVersion", PVal.str "1")]),
   (2, PObj.dict [("phase", PVal.str "Running")]),
   (3, PObj.dict [("kind", PVal.str "Pod"), ("metadata", PVal.ref 4)]),
   (4, PObj.dict [("name", PVal.str "x")])]

/-- Witness for C10 at a concrete heap: hashing succeeds and the caller's
metadata dict (address 1) reads back unchanged. -/
theorem C10_hash_leaves_document_unchanged_witness :
    calcHashHeap c10Heap 0 = some c10HeapAfter ∧
    heapGet c10HeapAfter 1 = heapGet c10Heap 1 :=
  ⟨by decide,
   C10_hash_leaves_document_unchanged c10Heap 0 c10HeapAfter (by decide) 1 (by decide)⟩

/-- One row of the `scan_records` table (schema in database/connection.py;
`nspace` is the `namespace` column — `namespace` is a Lean keyword).
`timestamp` is the integer capture time the store assigns on insert
(`DEFAULT CURRENT_TIMESTAMP`). -/
structure ScanRow where
  id : Nat
  timestamp : Nat
  cluster_context : Option String
  nspace : Option String
  scan_type : String
  total_resources : Nat
  cluster_version : Option String
  node_count : Nat
  cluster_info : Option String
deriving DecidableEq

/-- One row of the `resource_records` table. -/
structure ResourceRow where
  id : Nat
  scan_id : Nat
  api_version : String
  kind : String
  nspace : Option String
  name : String
  resource_data : String
  resource_hash : String
  is_helm_managed : Bool
  helm_release : Option String
  labels : Option String
  annotations : Option String
deriving DecidableEq

/-- One row of the `resource_changes` table (columns written and read back
by `ChangeDAO.create`/`find`; the DB-defaulted timestamp is not read by any
modelled code path and is omitted). -/
structure ChangeRow where
  id : Nat
  kind : String
  nspace : Option String
  name : String
  change_type : String
  old_scan_id : Nat
  new_scan_id : Nat
deriving DecidableEq

/-- The relational store: the three tables plus autoincrement counters
(SQLite AUTOINCREMENT / PostgreSQL SERIAL hand out strictly increasing ids
and never reuse one). -/
structure Store where
  scans : List ScanRow
  resources : List ResourceRow
  changes : List ChangeRow
  nextScanId : Nat
  nextResourceId : Nat
  nextChangeId : Nat
deriving DecidableEq

/-- `ScanDAO.get_previous` (service.py:45-49): the scan with the largest id
strictly below the given one (`WHERE id < :id ORDER BY id DESC LIMIT 1`). -/
def getPreviousScan (s : Store) (scanId : Nat) : Option ScanRow :=
  (s.scans.filter (fun r => r.id < scanId)).foldl
    (fun acc r =>
      match acc with
      | none => some r
      | some b => if b.id < r.id then some r else some b)
    none

/-- `ResourceDAO.get_by_scan` (service.py:82-85): all resource rows with
the given scan id; a SELECT over a missing scan id simply returns no rows,
it does not fail. -/
def getByScan (s : Store) (scanId : Nat) : List ResourceRow :=
  s.resources.filter (fun r => r.scan_id == scanId)

/-- `ScanDAO.find_by_id` (model/dao/base_dao.py:76-79):
`SELECT * FROM scan_records WHERE id = ?`. -/
def findScanById (s : Store) (scanId : Nat) : Option ScanRow :=
  s.scans.find? (fun r => r.id == scanId)

/-- Modelled from the spec: `ResourceDAO.find_by_scan_id` is called by
`HistoricalRepository` (historical_repository.py:53,91-92) but defined
nowhere in the source tree; the spec's Snapshot Store contract defines
`getResourcesForScan(scanId) -> [ResourceObservation]`, the resource rows
carrying that scan id. -/
def findByScanId (s : Store) (scanId : Nat) : List ResourceRow :=
  s.resources.filter (fun r => r.scan_id == scanId)

/-- `ChangeDAO.create` (service.py:112-129): insert a change row, returning
the generated id. -/
def createChange (s : Store) (kind : String) (ns : Option String) (name : String)
    (ctype : String) (oldId newId : Nat) : Store × Nat :=
  ({ s with
      changes := s.changes ++ [⟨s.nextChangeId, kind, ns, name, ctype, oldId, newId⟩],
      nextChangeId := s.nextChangeId + 1 },
   s.nextChangeId)

/-- `ChangeDAO.find` (service.py:131-134): point query by change id. -/
def changeFind (s : Store) (changeId : Nat) : Option ChangeRow :=
  s.changes.find? (fun c => c.id == changeId)

/-- The resource key of `detect_changes` (service.py:207-208):
`f"{api_version}/{kind}/{namespace or ''}/{name}"`; Python's `or`
collapses both `None` and `""` to `""`. -/
def dcKey (r : ResourceRow) : String :=
  r.api_version ++ "/" ++ r.kind ++ "/" ++
    (match r.nspace with
     | some s => s
     | none => "") ++ "/" ++ r.name

/-- The resource key of `compare_scans` (historical_repository.py:95-96):
`f"{api_version}/{kind}/{r.get('namespace', '')}/{name}"`.  The row always
has the column, so `.get` returns the stored value; a SQL NULL namespace is
Python's `None` and the f-string renders it as the string `"None"`. -/
def csKey (r : ResourceRow) : String :=
  r.api_version ++ "/" ++ r.kind ++ "/" ++
    (match r.nspace with
     | some s => s
     | none => "None") ++ "/" ++ r.name

/-- One insertion step of a Python dict comprehension: overwrite in place
when the key exists, else append. -/
def mapUpsert (key : ResourceRow → String) (acc : List (String × ResourceRow))
    (r : ResourceRow) : List (String × ResourceRow) :=
  if acc.any (fun e => e.1 == key r) then
    acc.map (fun e => if e.1 == key r then (key r, r) else e)
  else acc ++ [(key r, r)]

/-- Python dict comprehension `{key(r): r for r in rs}`: keys keep their
first-occurrence position, later values overwrite earlier ones. -/
def buildMap (key : ResourceRow → String) (rs : List ResourceRow) :
    List (String × ResourceRow) :=
  rs.foldl (mapUpsert key) []

/-- Python `k in map`. -/
def mapHasKey (m : List (String × ResourceRow)) (k : String) : Bool :=
  m.any (fun e => e.1 == k)

/-- Python `map[k]` / `map.get(k)`. -/
def mapLookup (m : List (String × ResourceRow)) (k : String) : Option ResourceRow :=
  (m.find? (fun e => e.1 == k)).map (fun e => e.2)

/-- `map.get(k)` followed by `.get("resource_hash")`. -/
def hashAt (m : List (String × ResourceRow)) (k : String) : Option String :=
  (mapLookup m k).map (fun r => r.resource_hash)

/-- The `created` loop of `detect_changes` (service.py:215-220): one change
row per current-map key missing from the previous map, each read back with
`ChangeDAO.find`. -/
def createdLoop (prevMap : List (String × ResourceRow)) (oldId newId : Nat) :
    List (String × ResourceRow) → Store × List ChangeRow → Store × List ChangeRow
  | [], acc => acc
  | e :: rest, acc =>
      if mapHasKey prevMap e.1 then createdLoop prevMap oldId newId rest acc
      else
        match createChange acc.1 e.2.kind e.2.nspace e.2.name "created" oldId newId with
        | (s2, cid) =>
            match changeFind s2 cid with
            | some row => createdLoop prevMap oldId newId rest (s2, acc.2 ++ [row])
            | none => createdLoop prevMap oldId newId rest (s2, acc.2)

/-- The `deleted` loop of `detect_changes` (service.py:222-227). -/
def deletedLoop (curMap : List (String × ResourceRow)) (oldId newId : Nat) :
    List (String × ResourceRow) → Store × List ChangeRow → Store × List ChangeRow
  | [], acc => acc
  | e :: rest, acc =>
      if mapHasKey curMap e.1 then deletedLoop curMap oldId newId rest acc
      else
        match createChange acc.1 e.2.kind e.2.nspace e.2.name "deleted" oldId newId with
        | (s2, cid) =>
            match changeFind s2 cid with
            | some row => deletedLoop curMap oldId newId rest (s2, acc.2 ++ [row])
            | none => deletedLoop curMap oldId newId rest (s2, acc.2)

/-- The `updated` loop of `detect_changes` (service.py:229-236), iterating
the key intersection (a Python set; iteration order unspecified — modelled
as the current map's key order restricted to the intersection). -/
def updatedLoop (prevMap : List (String × ResourceRow)) (oldId newId : Nat) :
    List (String × ResourceRow) → Store × List ChangeRow → Store × List ChangeRow
  | [], acc => acc
  | e :: rest, acc =>
      if hashAt prevMap e.1 != some e.2.resource_hash then
        match createChange acc.1 e.2.kind e.2.nspace e.2.name "updated" oldId newId with
        | (s2, cid) =>
            match changeFind s2 cid with
            | some row => updatedLoop prevMap oldId newId rest (s2, acc.2 ++ [row])
            | none => updatedLoop prevMap oldId newId rest (s2, acc.2)
      else updatedLoop prevMap oldId newId rest acc

/-- Embedding of `DatabaseService.detect_changes` for a resolved pair of
scan ids (service.py:204-238).  Note that no step checks that the scan ids
exist: `get_by_scan` of a missing id just returns zero rows. -/
def detectChangesFrom (s : Store) (newScanId oldScanId : Nat) : Store × List ChangeRow :=
  let currentMap := buildMap dcKey (getByScan s newScanId)
  let previousMap := buildMap dcKey (getByScan s oldScanId)
  let acc1 := createdLoop previousMap oldScanId newScanId currentMap (s, [])
  let acc2 := deletedLoop currentMap oldScanId newScanId previousMap acc1
  updatedLoop previousMap oldScanId newScanId
    (currentMap.filter (fun e => mapHasKey previousMap e.1)) acc2

/-- Embedding of `DatabaseService.detect_changes` (service.py:195-238): an
omitted old scan id falls back to the most recent earlier scan (empty diff
if none); the function never signals a missing scan id. -/
def detectChanges (s : Store) (newScanId : Nat) (oldScanId : Option Nat) :
    Store × List ChangeRow :=
  match oldScanId with
  | none =>
      match getPreviousScan s newScanId with
      | none => (s, [])
      | some prev => detectChangesFrom s newScanId prev.id
  | some oid => detectChangesFrom s newScanId oid

/-- The classification loop of `compare_scans`
(historical_repository.py:107-119): every key of `all_keys` goes to exactly
one of added / removed / modified / unchanged (list order is irrelevant to
the claims; the Python set iteration order is unspecified anyway). -/
def classifyKeys (m1 m2 : List (String × ResourceRow)) :
    List String → List String × List String × List String × List String
  | [] => ([], [], [], [])
  | k :: rest =>
      match classifyKeys m1 m2 rest with
      | (added, removed, modified, unchanged) =>
          if mapHasKey m1 k then
            if mapHasKey m2 k then
              if hashAt m1 k != hashAt m2 k then (added, removed, k :: modified, unchanged)
              else (added, removed, modified, k :: unchanged)
            else (added, k :: removed, modified, unchanged)
          else (k :: added, removed, modified, unchanged)

/-- The summary block of `compare_scans` (historical_repository.py:138-144). -/
structure ComparisonSummary where
  total_added : Nat
  total_removed : Nat
  total_modified : Nat
  total_unchanged : Nat
  net_change : Int
deriving DecidableEq

/-- Embedding of `HistoricalRepository.compare_scans`
(historical_repository.py:79-147) at the level of the classified key sets
and the summary: `ValueError` (`Except.error`) when either scan id does not
exist; otherwise the four-way key classification over
`all_keys = set(keys1) | set(keys2)` (modelled in first-occurrence order). -/
def compareScans (s : Store) (scanId1 scanId2 : Nat) :
    Except String ((List String × List String × List String × List String) × ComparisonSummary) :=
  match findScanById s scanId1, findScanById s scanId2 with
  | some _, some _ =>
      let resources1 := findByScanId s scanId1
      let resources2 := findByScanId s scanId2
      let m1 := buildMap csKey resources1
      let m2 := buildMap csKey resources2
      let allKeys := m1.map Prod.fst ++
        (m2.map Prod.fst).filter (fun k => !(m1.map Prod.fst).contains k)
      match classifyKeys m1 m2 allKeys with
      | (added, removed, modified, unchanged) =>
          Except.ok ((added, removed, modified, unchanged),
            ⟨added.length, removed.length, modified.length, unchanged.length,
             (resources2.length : Int) - (resources1.length : Int)⟩)
  | _, _ => Except.error "One or both scans not found"

/-- An upsert adds exactly the new key to the key set. -/
theorem mapHasKey_upsert (key : ResourceRow → String) (acc : List (String × ResourceRow))
    (r : ResourceRow) (k : String) :
    mapHasKey (mapUpsert key acc r) k = true ↔ (mapHasKey acc k = true ∨ key r = k) := by
  rw [mapUpsert]
  by_cases h : acc.any (fun e => e.1 == key r) = true
  · rw [if_pos h]
    have hkeys : ∀ l : List (String × ResourceRow),
        mapHasKey (l.map (fun e => if e.1 == key r then (key r, r) else e)) k =
          mapHasKey l k := by
      intro l
      induction l with
      | nil => rfl
      | cons e rest ih2 =>
          cases e with
          | mk ke ve =>
              by_cases he : ke = key r
              · subst he
                rw [List.map_cons, if_pos (by simp)]
                simp only [mapHasKey, List.any_cons] at ih2 ⊢
                rw [ih2]
              · rw [List.map_cons, if_neg (by simpa using he)]
                simp only [mapHasKey, List.any_cons] at ih2 ⊢
                rw [ih2]
    rw [hkeys]
    constructor
    · exact fun hh => Or.inl hh
    · rintro (hh | rfl)
      · exact hh
      · rw [mapHasKey]
        exact h
  · rw [if_neg h]
    rw [mapHasKey, List.any_append]
    simp [mapHasKey]

/-- The key set of a dict comprehension is the key image of the rows. -/
theorem mapHasKey_buildMap (key : ResourceRow → String) (rs : List ResourceRow) (k : String) :
    mapHasKey (buildMap key rs) k = true ↔ k ∈ rs.map key := by
  have main : ∀ acc : List (String × ResourceRow),
      mapHasKey (rs.foldl (mapUpsert key) acc) k = true ↔
        (mapHasKey acc k = true ∨ k ∈ rs.map key) := by
    induction rs with
    | nil =>
        intro acc
        simp
    | cons r rest ih =>
        intro acc
        rw [List.foldl_cons, ih, mapHasKey_upsert]
        simp only [List.map_cons, List.mem_cons]
        constructor
        · rintro ((hh | rfl) | hmem)
          · exact Or.inl hh
          · exact Or.inr (Or.inl rfl)
          · exact Or.inr (Or.inr hmem)
        · rintro (hh | (rfl | hmem))
          · exact Or.inl (Or.inl hh)
          · exact Or.inl (Or.inr rfl)
          · exact Or.inr hmem
  rw [buildMap, main]
  simp [mapHasKey]

/-- Membership in the `set(keys1) | set(keys2)` union as built in
`compare_scans`. -/
theorem mem_union_keys (l1 l2 : List String) (k : String) :
    k ∈ l1 ++ l2.filter (fun x => !l1.contains x) ↔ (k ∈ l1 ∨ k ∈ l2) := by
  simp only [List.mem_append, List.mem_filter, Bool.not_eq_true']
  constructor
  · rintro (h | ⟨h, _⟩)
    · exact Or.inl h
    · exact Or.inr h
  · rintro (h | h)
    · exact Or.inl h
    · by_cases h1 : k ∈ l1
      · exact Or.inl h1
      · refine Or.inr ⟨h, ?_⟩
        simpa [List.elem_iff] using h1

/-- Full membership characterization of the four classification lists of
`compare_scans`: a key lands in a class exactly when it is among the
iterated keys and satisfies that class's condition. -/
theorem classifyKeys_spec (m1 m2 : List (String × ResourceRow)) (ks : List String)
    (k : String) :
    (k ∈ (classifyKeys m1 m2 ks).1 ↔ k ∈ ks ∧ mapHasKey m1 k = false) ∧
    (k ∈ (classifyKeys m1 m2 ks).2.1 ↔
      k ∈ ks ∧ mapHasKey m1 k = true ∧ mapHasKey m2 k = false) ∧
    (k ∈ (classifyKeys m1 m2 ks).2.2.1 ↔
      k ∈ ks ∧ mapHasKey m1 k = true ∧ mapHasKey m2 k = true ∧
        hashAt m1 k ≠ hashAt m2 k) ∧
    (k ∈ (classifyKeys m1 m2 ks).2.2.2 ↔
      k ∈ ks ∧ mapHasKey m1 k = true ∧ mapHasKey m2 k = true ∧
        hashAt m1 k = hashAt m2 k) := by
  induction ks with
  | nil =>
      rw [show classifyKeys m1 m2 [] = ([], [], [], []) from rfl]
      simp
  | cons k2 rest ih =>
      obtain ⟨ih1, ih2, ih3, ih4⟩ := ih
      rcases htup : classifyKeys m1 m2 rest with ⟨a, r, mo, u⟩
      rw [htup] at ih1 ih2 ih3 ih4
      by_cases h1 : mapHasKey m1 k2 = true
      · by_cases h2 : mapHasKey m2 k2 = true
        · by_cases h3 : (hashAt m1 k2 != hashAt m2 k2) = true
          · have hcl : classifyKeys m1 m2 (k2 :: rest) = (a, r, k2 :: mo, u) := by
              rw [classifyKeys, htup]
              simp [h1, h2, h3]
            rw [hcl]
            simp only [List.mem_cons] at *
            refine ⟨?_, ?_, ?_, ?_⟩
            · rw [ih1]
              constructor
              · rintro ⟨hm, hp⟩
                exact ⟨Or.inr hm, hp⟩
              · rintro ⟨rfl | hm, hp⟩
                · rw [h1] at hp
                  cases hp
                · exact ⟨hm, hp⟩
            · rw [ih2]
              constructor
              · rintro ⟨hm, hp⟩
                exact ⟨Or.inr hm, hp⟩
              · rintro ⟨rfl | hm, hp⟩
                · rw [h2] at hp
                  cases hp.2
                · exact ⟨hm, hp⟩
            · constructor
              · rintro (rfl | hm)
                · exact ⟨Or.inl rfl, h1, h2, by simpa using h3⟩
                · obtain ⟨hm2, hp⟩ := ih3.mp hm
                  exact ⟨Or.inr hm2, hp⟩
              · rintro ⟨rfl | hm, hp⟩
                · exact Or.inl rfl
                · exact Or.inr (ih3.mpr ⟨hm, hp⟩)
            · rw [ih4]
              constructor
              · rintro ⟨hm, hp⟩
                exact ⟨Or.inr hm, hp⟩
              · rintro ⟨rfl | hm, hp⟩
                · have hne3 : hashAt m1 k ≠ hashAt m2 k := by simpa using h3
                  exact absurd hp.2.2 hne3
                · exact ⟨hm, hp⟩
          · have hcl : classifyKeys m1 m2 (k2 :: rest) = (a, r, mo, k2 :: u) := by
              rw [classifyKeys, htup]
              simp [h1, h2, h3]
            rw [hcl]
            have heq : hashAt m1 k2 = hashAt m2 k2 := by simpa using h3
            simp only [List.mem_cons] at *
            refine ⟨?_, ?_, ?_, ?_⟩
            · rw [ih1]
              constructor
              · rintro ⟨hm, hp⟩
                exact ⟨Or.inr hm, hp⟩
              · rintro ⟨rfl | hm, hp⟩
                · rw [h1] at hp
                  cases hp
                · exact ⟨hm, hp⟩
            · rw [ih2]
              constructor
              · rintro ⟨hm, hp⟩
                exact ⟨Or.inr hm, hp⟩
              · rintro ⟨rfl | hm, hp⟩
                · rw [h2] at hp
                  cases hp.2
                · exact ⟨hm, hp⟩
            · rw [ih3]
              constructor
              · rintro ⟨hm, hp⟩
                exact ⟨Or.inr hm, hp⟩
              · rintro ⟨rfl | hm, hp⟩
                · exact absurd heq hp.2.2
                · exact ⟨hm, hp⟩
            · constructor
              · rintro (rfl | hm)
                · exact ⟨Or.inl rfl, h1, h2, heq⟩
                · obtain ⟨hm2, hp⟩ := ih4.mp hm
                  exact ⟨Or.inr hm2, hp⟩
              · rintro ⟨rfl | hm, hp⟩
                · exact Or.inl rfl
                · exact Or.inr (ih4.mpr ⟨hm, hp⟩)
        · have hcl : classifyKeys m1 m2 (k2 :: rest) = (a, k2 :: r, mo, u) := by
            rw [classifyKeys, htup]
            simp [h1, h2]
          rw [hcl]
          have h2f : mapHasKey m2 k2 = false := by simpa using h2
          simp only [List.mem_cons] at *
          refine ⟨?_, ?_, ?_, ?_⟩
          · rw [ih1]
            constructor
            · rintro ⟨hm, hp⟩
              exact ⟨Or.inr hm, hp⟩
            · rintro ⟨rfl | hm, hp⟩
              · rw [h1] at hp
                cases hp
              · exact ⟨hm, hp⟩
          · constructor
            · rintro (rfl | hm)
              · exact ⟨Or.inl rfl, h1, h2f⟩
              · obtain ⟨hm2, hp⟩ := ih2.mp hm
                exact ⟨Or.inr hm2, hp⟩
            · rintro ⟨rfl | hm, hp⟩
              · exact Or.inl rfl
              · exact Or.inr (ih2.mpr ⟨hm, hp⟩)
          · rw [ih3]
            constructor
            · rintro ⟨hm, hp⟩
              exact ⟨Or.inr hm, hp⟩
            · rintro ⟨rfl | hm, hp⟩
              · rw [h2f] at hp
                cases hp.2.1
              · exact ⟨hm, hp⟩
          · rw [ih4]
            constructor
            · rintro ⟨hm, hp⟩
              exact ⟨Or.inr hm, hp⟩
            · rintro ⟨rfl | hm, hp⟩
              · rw [h2f] at hp
                cases hp.2.1
              · exact ⟨hm, hp⟩
      · have hcl : classifyKeys m1 m2 (k2 :: rest) = (k2 :: a, r, mo, u) := by
          rw [classifyKeys, htup]
          simp [h1]
        rw [hcl]
        have h1f : mapHasKey m1 k2 = false := by simpa using h1
        simp only [List.mem_cons] at *
        refine ⟨?_, ?_, ?_, ?_⟩
        · constructor
          · rintro (rfl | hm)
            · exact ⟨Or.inl rfl, h1f⟩
            · obtain ⟨hm2, hp⟩ := ih1.mp hm
              exact ⟨Or.inr hm2, hp⟩
          · rintro ⟨rfl | hm, hp⟩
            · exact Or.inl rfl
            · exact Or.inr (ih1.mpr ⟨hm, hp⟩)
        · rw [ih2]
          constructor
          · rintro ⟨hm, hp⟩
            exact ⟨Or.inr hm, hp⟩
          · rintro ⟨rfl | hm, hp⟩
            · rw [h1f] at hp
              cases hp.1
            · exact ⟨hm, hp⟩
        · rw [ih3]
          constructor
          · rintro ⟨hm, hp⟩
            exact ⟨Or.inr hm, hp⟩
          · rintro ⟨rfl | hm, hp⟩
            · rw [h1f] at hp
              cases hp.1
            · exact ⟨hm, hp⟩
        · rw [ih4]
          constructor
          · rintro ⟨hm, hp⟩
            exact ⟨Or.inr hm, hp⟩
          · rintro ⟨rfl | hm, hp⟩
            · rw [h1f] at hp
              cases hp.1
            · exact ⟨hm, hp⟩

/-- `mapHasKey` agrees with membership in the key list. -/
theorem mapHasKey_iff_mem (m : List (String × ResourceRow)) (k : String) :
    mapHasKey m k = true ↔ k ∈ m.map Prod.fst := by
  rw [mapHasKey, List.any_eq_true]
  constructor
  · rintro ⟨e, he, hk⟩
    exact List.mem_map.mpr ⟨e, he, by simpa using hk⟩
  · intro hmem
    obtain ⟨e, he, hk⟩ := List.mem_map.mp hmem
    exact ⟨e, he, by simpa using hk⟩

/-- Inversion of a successful `compare_scans`: the four lists are exactly
the classification of the union key list. -/
theorem compareScans_ok_inv (s : Store) (id1 id2 : Nat)
    (added removed modified unchanged : List String) (summ : ComparisonSummary)
    (hok : compareScans s id1 id2 =
      Except.ok ((added, removed, modified, unchanged), summ)) :
    (added, removed, modified, unchanged) =
      classifyKeys (buildMap csKey (findByScanId s id1))
        (buildMap csKey (findByScanId s id2))
        ((buildMap csKey (findByScanId s id1)).map Prod.fst ++
          ((buildMap csKey (findByScanId s id2)).map Prod.fst).filter
            (fun k => !((buildMap csKey (findByScanId s id1)).map Prod.fst).contains k)) := by
  rw [compareScans] at hok
  cases hs1 : findScanById s id1 with
  | none => simp [hs1] at hok
  | some row1 =>
      cases hs2 : findScanById s id2 with
      | none => simp [hs1, hs2] at hok
      | some row2 =>
          rw [hs1, hs2] at hok
          simp only [] at hok
          rcases hcls : classifyKeys (buildMap csKey (findByScanId s id1))
              (buildMap csKey (findByScanId s id2))
              ((buildMap csKey (findByScanId s id1)).map Prod.fst ++
                ((buildMap csKey (findByScanId s id2)).map Prod.fst).filter
                  (fun k => !((buildMap csKey (findByScanId s id1)).map Prod.fst).contains k))
            with ⟨a, r, mo, u⟩
          rw [hcls] at hok
          simp only [Except.ok.injEq, Prod.mk.injEq] at hok
          obtain ⟨⟨ha, hr, hmo, hu⟩, -⟩ := hok
          rw [ha, hr, hmo, hu]

/-- C3: for every pair of stored scans (A = scan `id1`, B = scan `id2`),
`compare_scans` classifies every resource key occurring in A or B into
exactly one of added (in B only), removed (in A only), modified (in both,
hashes differ), unchanged (in both, hashes equal); the four classes are
pairwise disjoint and their union is the key set of A ∪ B. -/
theorem C3_reconciliation_partitions_keys
    (s : Store) (id1 id2 : Nat)
    (added removed modified unchanged : List String) (summ : ComparisonSummary)
    (hok : compareScans s id1 id2 =
      Except.ok ((added, removed, modified, unchanged), summ))
    (k : String) :
    ((k ∈ (findByScanId s id1).map csKey ∨ k ∈ (findByScanId s id2).map csKey) ↔
      (k ∈ added ∨ k ∈ removed ∨ k ∈ modified ∨ k ∈ unchanged)) ∧
    (k ∈ added →
      k ∈ (findByScanId s id2).map csKey ∧ ¬ k ∈ (findByScanId s id1).map csKey) ∧
    (k ∈ removed →
      k ∈ (findByScanId s id1).map csKey ∧ ¬ k ∈ (findByScanId s id2).map csKey) ∧
    (k ∈ modified →
      k ∈ (findByScanId s id1).map csKey ∧ k ∈ (findByScanId s id2).map csKey ∧
        hashAt (buildMap csKey (findByScanId s id1)) k ≠
          hashAt (buildMap csKey (findByScanId s id2)) k) ∧
    (k ∈ unchanged →
      k ∈ (findByScanId s id1).map csKey ∧ k ∈ (findByScanId s id2).map csKey ∧
        hashAt (buildMap csKey (findByScanId s id1)) k =
          hashAt (buildMap csKey (findByScanId s id2)) k) ∧
    ¬(k ∈ added ∧ k ∈ removed) ∧ ¬(k ∈ added ∧ k ∈ modified) ∧
    ¬(k ∈ added ∧ k ∈ unchanged) ∧ ¬(k ∈ removed ∧ k ∈ modified) ∧
    ¬(k ∈ removed ∧ k ∈ unchanged) ∧ ¬(k ∈ modified ∧ k ∈ unchanged) := by
  have hinv := compareScans_ok_inv s id1 id2 added removed modified unchanged summ hok
  have hspec := classifyKeys_spec (buildMap csKey (findByScanId s id1))
    (buildMap csKey (findByScanId s id2))
    ((buildMap csKey (findByScanId s id1)).map Prod.fst ++
      ((buildMap csKey (findByScanId s id2)).map Prod.fst).filter
        (fun k => !((buildMap csKey (findByScanId s id1)).map Prod.fst).contains k)) k
  rw [← hinv] at hspec
  obtain ⟨hA, hR, hM, hU⟩ := hspec
  have hm1 : mapHasKey (buildMap csKey (findByScanId s id1)) k = true ↔
      k ∈ (findByScanId s id1).map csKey := mapHasKey_buildMap csKey _ k
  have hm2 : mapHasKey (buildMap csKey (findByScanId s id2)) k = true ↔
      k ∈ (findByScanId s id2).map csKey := mapHasKey_buildMap csKey _ k
  have hall : k ∈ ((buildMap csKey (findByScanId s id1)).map Prod.fst ++
      ((buildMap csKey (findByScanId s id2)).map Prod.fst).filter
        (fun k => !((buildMap csKey (findByScanId s id1)).map Prod.fst).contains k)) ↔
      (k ∈ (findByScanId s id1).map csKey ∨ k ∈ (findByScanId s id2).map csKey) := by
    rw [mem_union_keys]
    rw [← mapHasKey_iff_mem, ← mapHasKey_iff_mem, hm1, hm2]
  have hfalse1 : (mapHasKey (buildMap csKey (findByScanId s id1)) k = false) ↔
      ¬ k ∈ (findByScanId s id1).map csKey := by
    rw [← hm1]
    constructor
    · intro h hc
      rw [h] at hc
      cases hc
    · intro h
      by_contra hc
      exact h (by simpa using hc)
  refine ⟨?_, ?_, ?_, ?_, ?_, ?_, ?_, ?_, ?_, ?_, ?_⟩
  · constructor
    · intro hk
      by_cases hin1 : mapHasKey (buildMap csKey (findByScanId s id1)) k = true
      · by_cases hin2 : mapHasKey (buildMap csKey (findByScanId s id2)) k = true
        · by_cases hhash : hashAt (buildMap csKey (findByScanId s id1)) k =
              hashAt (buildMap csKey (findByScanId s id2)) k
          · exact Or.inr (Or.inr (Or.inr (hU.mpr ⟨hall.mpr hk, hin1, hin2, hhash⟩)))
          · exact Or.inr (Or.inr (Or.inl (hM.mpr ⟨hall.mpr hk, hin1, hin2, hhash⟩)))
        · exact Or.inr (Or.inl (hR.mpr ⟨hall.mpr hk, hin1, by simpa using hin2⟩))
      · exact Or.inl (hA.mpr ⟨hall.mpr hk, by simpa using hin1⟩)
    · rintro (h | h | h | h)
      · exact hall.mp (hA.mp h).1
      · exact hall.mp (hR.mp h).1
      · exact hall.mp (hM.mp h).1
      · exact hall.mp (hU.mp h).1
  · intro h
    obtain ⟨hmem, hf⟩ := hA.mp h
    have hor := hall.mp hmem
    have hno1 : ¬ k ∈ (findByScanId s id1).map csKey := hfalse1.mp hf
    exact ⟨hor.resolve_left hno1, hno1⟩
  · intro h
    obtain ⟨hmem, h1, h2⟩ := hR.mp h
    refine ⟨hm1.mp h1, ?_⟩
    intro hc
    rw [hm2.mpr hc] at h2
    cases h2
  · intro h
    obtain ⟨hmem, h1, h2, hh⟩ := hM.mp h
    exact ⟨hm1.mp h1, hm2.mp h2, hh⟩
  · intro h
    obtain ⟨hmem, h1, h2, hh⟩ := hU.mp h
    exact ⟨hm1.mp h1, hm2.mp h2, hh⟩
  · rintro ⟨h1, h2⟩
    have := (hA.mp h1).2
    rw [(hR.mp h2).2.1] at this
    cases this
  · rintro ⟨h1, h2⟩
    have := (hA.mp h1).2
    rw [(hM.mp h2).2.1] at this
    cases this
  · rintro ⟨h1, h2⟩
    have := (hA.mp h1).2
    rw [(hU.mp h2).2.1] at this
    cases this
  · rintro ⟨h1, h2⟩
    have := (hR.mp h1).2.2
    rw [(hM.mp h2).2.2.1] at this
    cases this
  · rintro ⟨h1, h2⟩
    have := (hR.mp h1).2.2
    rw [(hU.mp h2).2.2.1] at this
    cases this
  · rintro ⟨h1, h2⟩
    exact absurd (hU.mp h2).2.2.2 (hM.mp h1).2.2.2

/-- Concrete store for the C3 witness — the spec's Scenario 1: scan 1 holds
Pod/a, Service/b, ConfigMap/c; scan 2 holds Pod/a (unchanged), Service/b
(changed hash), ConfigMap/d (new name). -/
def c3Store : Store :=
  { scans := [⟨1, 10, none, none, "full", 3, none, 0, none⟩,
              ⟨2, 20, none, none, "full", 3, none, 0, none⟩],
    resources := [
      ⟨1, 1, "v1", "Pod", some "default", "a", "", "h-a", false, none, none, none⟩,
      ⟨2, 1, "v1", "Service", some "default", "b", "", "h-b1", false, none, none, none⟩,
      ⟨3, 1, "v1", "ConfigMap", some "default", "c", "", "h-c", false, none, none, none⟩,
      ⟨4, 2, "v1", "Pod", some "default", "a", "", "h-a", false, none, none, none⟩,
      ⟨5, 2, "v1", "Service", some "default", "b", "", "h-b2", false, none, none, none⟩,
      ⟨6, 2, "v1", "ConfigMap", some "default", "d", "", "h-d", false, none, none, none⟩],
    changes := [], nextScanId := 3, nextResourceId := 7, nextChangeId := 0 }

/-- Witness for C3 on the Scenario-1 store: the updated key
`v1/Service/default/b` is classified as modified only, and every key of
either scan lands in exactly one class. -/
theorem C3_reconciliation_partitions_keys_witness :
    ((("v1/Service/default/b" ∈ (findByScanId c3Store 1).map csKey ∨
        "v1/Service/default/b" ∈ (findByScanId c3Store 2).map csKey) ↔
      ("v1/Service/default/b" ∈ ["v1/ConfigMap/default/d"] ∨
        "v1/Service/default/b" ∈ ["v1/ConfigMap/default/c"] ∨
        "v1/Service/default/b" ∈ ["v1/Service/default/b"] ∨
        "v1/Service/default/b" ∈ ["v1/Pod/default/a"]))) ∧
    ¬("v1/Service/default/b" ∈ ["v1/Service/default/b"] ∧
      "v1/Service/default/b" ∈ ["v1/Pod/default/a"]) := by
  have h := C3_reconciliation_partitions_keys c3Store 1 2
    ["v1/ConfigMap/default/d"] ["v1/ConfigMap/default/c"]
    ["v1/Service/default/b"] ["v1/Pod/default/a"]
    ⟨1, 1, 1, 1, 0⟩ (by rfl) "v1/Service/default/b"
  exact ⟨h.1, h.2.2.2.2.2.2.2.2.2.2⟩

/-- Finding a freshly appended row by its id succeeds when all earlier rows
have smaller ids (the autoincrement invariant). -/
theorem find_id_append (n : Nat) (l : List ChangeRow) (row : ChangeRow)
    (hlt : ∀ c ∈ l, c.id < n) (hid : row.id = n) :
    (l ++ [row]).find? (fun c => c.id == n) = some row := by
  induction l with
  | nil => simp [List.find?, hid]
  | cons c rest ih =>
      rw [List.cons_append, List.find?]
      have hc : (c.id == n) = false := by
        have := hlt c (by simp)
        simp only [beq_eq_false_iff_ne, ne_eq]
        omega
      rw [hc]
      exact ih (fun c2 hc2 => hlt c2 (by simp [hc2]))

/-- `ChangeDAO.find` right after `ChangeDAO.create` returns the row just
inserted. -/
theorem changeFind_createChange (st : Store)
    (hwf : ∀ c ∈ st.changes, c.id < st.nextChangeId)
    (kind : String) (ns : Option String) (name : String) (ctype : String)
    (oldId newId : Nat) :
    changeFind (createChange st kind ns name ctype oldId newId).1
        (createChange st kind ns name ctype oldId newId).2 =
      some ⟨st.nextChangeId, kind, ns, name, ctype, oldId, newId⟩ := by
  rw [createChange, changeFind]
  exact find_id_append st.nextChangeId st.changes _ hwf rfl

/-- `ChangeDAO.create` preserves the autoincrement invariant. -/
theorem wf_createChange (st : Store)
    (hwf : ∀ c ∈ st.changes, c.id < st.nextChangeId)
    (kind : String) (ns : Option String) (name : String) (ctype : String)
    (oldId newId : Nat) :
    ∀ c ∈ (createChange st kind ns name ctype oldId newId).1.changes,
      c.id < (createChange st kind ns name ctype oldId newId).1.nextChangeId := by
  intro c hc
  rw [createChange] at hc ⊢
  simp only at hc ⊢
  rcases List.mem_append.mp hc with h | h
  · exact Nat.lt_trans (hwf c h) (Nat.lt_succ_self _)
  · simp only [List.mem_singleton] at h
    subst h
    exact Nat.lt_succ_self _

/-- Against an empty previous map, the `created` loop emits one `created`
change per current-map entry. -/
theorem createdLoop_empty_prev (oldId newId : Nat) :
    ∀ (lst : List (String × ResourceRow)) (st : Store) (cs : List ChangeRow),
      (∀ c ∈ st.changes, c.id < st.nextChangeId) →
      ((createdLoop [] oldId newId lst (st, cs)).2).map (fun c => c.change_type) =
        cs.map (fun c => c.change_type) ++ List.replicate lst.length "created"
  | [], st, cs, hwf => by simp [createdLoop]
  | e :: rest, st, cs, hwf => by
      have hfind := changeFind_createChange st hwf e.2.kind e.2.nspace e.2.name "created" oldId newId
      have hwf2 := wf_createChange st hwf e.2.kind e.2.nspace e.2.name "created" oldId newId
      rcases hcc : createChange st e.2.kind e.2.nspace e.2.name "created" oldId newId with ⟨s2, cid⟩
      rw [hcc] at hfind hwf2
      simp only at hfind hwf2
      rw [createdLoop, if_neg (by simp [mapHasKey])]
      simp only [hcc, hfind]
      have ih := createdLoop_empty_prev oldId newId rest s2
        (cs ++ [⟨st.nextChangeId, e.2.kind, e.2.nspace, e.2.name, "created", oldId, newId⟩]) hwf2
      rw [ih]
      simp [List.replicate_succ]

/-- Concrete store for the C4 counterexample: scan 1 exists and holds one
resource; there is no scan 99. -/
def c4Store : Store :=
  { scans := [⟨1, 10, none, none, "full", 1, none, 0, none⟩],
    resources := [⟨1, 1, "v1", "ConfigMap", some "default", "cfg", "", "h1",
      false, none, none, none⟩],
    changes := [], nextScanId := 2, nextResourceId := 2, nextChangeId := 0 }

/-- Counterexample to C4 as stated: reconciling scan 1 against the
nonexistent scan 99 does not fail with any NotFound condition —
`detect_changes` silently returns a diff computed as if scan 99 had zero
resources, reporting the present resource as created (and persisting that
change row). -/
theorem C4_counterexample :
    (detectChanges c4Store 1 (some 99)).2 =
      [⟨0, "ConfigMap", some "default", "cfg", "created", 99, 1⟩] ∧
    (detectChanges c4Store 1 (some 99)).2 ≠ [] := by
  constructor
  · decide
  · decide

/-- C4 (amended): `DatabaseService.detect_changes` performs no
scan-existence check.  When the explicitly supplied old scan id has no
stored resource rows — in particular when no such scan exists —
the call does not fail: it returns a diff computed as if the old scan had
zero resources, namely exactly one `created` change per distinct resource
key of the new scan and no `deleted` or `updated` changes.
(`HistoricalRepository.compare_scans` does raise for a missing scan id;
`detect_changes` and `ResourceDAO.get_by_scan` do not.) -/
theorem C4_amended_missing_old_scan_treated_as_empty
    (s : Store) (newId oldId : Nat)
    (hwfs : ∀ c ∈ s.changes, c.id < s.nextChangeId)
    (hmiss : getByScan s oldId = []) :
    ((detectChanges s newId (some oldId)).2).map (fun c => c.change_type) =
      List.replicate (buildMap dcKey (getByScan s newId)).length "created" := by
  have hstep : detectChanges s newId (some oldId) =
      updatedLoop (buildMap dcKey (getByScan s oldId)) oldId newId
        ((buildMap dcKey (getByScan s newId)).filter
          (fun e => mapHasKey (buildMap dcKey (getByScan s oldId)) e.1))
        (deletedLoop (buildMap dcKey (getByScan s newId)) oldId newId
          (buildMap dcKey (getByScan s oldId))
          (createdLoop (buildMap dcKey (getByScan s oldId)) oldId newId
            (buildMap dcKey (getByScan s newId)) (s, []))) := rfl
  rw [hstep, hmiss]
  have hprev : buildMap dcKey [] = [] := rfl
  rw [hprev]
  have hfilter : (buildMap dcKey (getByScan s newId)).filter
      (fun e => mapHasKey ([] : List (String × ResourceRow)) e.1) = [] := by
    simp [mapHasKey]
  rw [hfilter]
  have hdel : ∀ acc, deletedLoop (buildMap dcKey (getByScan s newId)) oldId newId [] acc =
      acc := fun _ => rfl
  rw [hdel]
  have hupd : ∀ acc, updatedLoop ([] : List (String × ResourceRow)) oldId newId [] acc =
      acc := fun _ => rfl
  rw [hupd]
  simpa using createdLoop_empty_prev oldId newId (buildMap dcKey (getByScan s newId)) s [] hwfs

/-- Witness for the amended C4 at the concrete store: the missing old scan
yields a pure `created` diff of length one. -/
theorem C4_amended_missing_old_scan_treated_as_empty_witness :
    ((detectChanges c4Store 1 (some 99)).2).map (fun c => c.change_type) =
      List.replicate (buildMap dcKey (getByScan c4Store 1)).length "created" :=
  C4_amended_missing_old_scan_treated_as_empty c4Store 1 99 (by simp [c4Store]) (by decide)

/-- Embedding of the health-score computation of
`AnalysisService.get_cluster_health_report` (analysis_service.py:219-237):
start from 100; if `drift_events > 10` subtract `min(30, drift_events * 2)`;
if `total_changes > 50` subtract `min(20, (total_changes - 50) // 10)`;
if `scan_frequency < 0.5` subtract a flat 20; floor at 0. -/
def healthScore (driftEvents totalChanges : Nat) (scanFrequency : ℚ) : Int :=
  let s1 : Int := if driftEvents > 10 then 100 - min 30 ((driftEvents : Int) * 2) else 100
  let s2 : Int :=
    if totalChanges > 50 then s1 - min 20 (((totalChanges - 50) / 10 : Nat) : Int) else s1
  let s3 : Int := if scanFrequency < 1/2 then s2 - 20 else s2
  max 0 s3

/-- Counterexample to C5 as stated: at 11 drift events (change volume 0,
one scan per day) the code subtracts `min(30, 11*2) = 22`, giving 78 — not
the claimed `max(0, 100 − min(30, 2·(11−10))) = 98`: the two points are
charged per event, not per event above the threshold. -/
theorem C5_counterexample :
    healthScore 11 0 1 = 78 ∧
    healthScore 11 0 1 ≠ max 0 (100 - min 30 (2 * ((11 : Int) - 10))) := by
  constructor
  · norm_num [healthScore]
  · norm_num [healthScore]

/-- C5 (amended): with change volume at most 50 and scan frequency at least
0.5/day, the drift deduction applies only when the drift-event count
exceeds 10, but then charges 2 points per event in total (not per event
above the threshold), capped at 30:
`healthScore(d, cv, f) = 100 − min(30, 2·d)` for `d > 10` and `100` for
`d ≤ 10`. -/
theorem C5_drift_deduction
    (d cv : Nat) (f : ℚ) (hcv : cv ≤ 50) (hf : (1 : ℚ)/2 ≤ f) :
    (d ≤ 10 → healthScore d cv f = 100) ∧
    (10 < d → healthScore d cv f = 100 - min 30 (2 * (d : Int))) := by
  constructor
  · intro hd
    have h1 : ¬ d > 10 := by omega
    have h2 : ¬ cv > 50 := by omega
    have h3 : ¬ f < 1/2 := not_lt.mpr hf
    simp only [healthScore, if_neg h1, if_neg h2, if_neg h3]
    rfl
  · intro hd
    have h2 : ¬ cv > 50 := by omega
    have h3 : ¬ f < 1/2 := not_lt.mpr hf
    simp only [healthScore, if_pos hd, if_neg h2, if_neg h3]
    omega

/-- Witness for the amended C5 at 12 drift events, change volume 50 and one
scan per day. -/
theorem C5_drift_deduction_witness :
    (12 ≤ 10 → healthScore 12 50 1 = 100) ∧
    (10 < 12 → healthScore 12 50 1 = 100 - min 30 (2 * (12 : Int))) :=
  C5_drift_deduction 12 50 1 (by norm_num) (by norm_num)

/-- Bridge between the executable floor of Batteries and the Int.floor of
Mathlib: both compute `num / den`. -/
theorem ratFloor_eq_floor (q : ℚ) : Rat.floor q = ⌊q⌋ := by
  rw [Rat.floor_def, Rat.floor_def']

/-- Executable maximum on ℚ (Python's `max(0, ...)`), via the boolean
comparison `Rat.blt` so that concrete instances reduce. -/
def ratMax (a b : ℚ) : ℚ := if Rat.blt a b then b else a

/-- Agreement of the executable maximum with the order-theoretic `max`. -/
theorem ratMax_eq_max (a b : ℚ) : ratMax a b = max a b := by
  unfold ratMax
  have hblt : Rat.blt a b = true ↔ a < b := Iff.rfl
  by_cases h : a < b
  · rw [if_pos (hblt.mpr h), max_eq_right h.le]
  · rw [if_neg (by simpa [hblt] using h), max_eq_left (not_lt.mp h)]

/-- Embedding of Python's `round(x, 2)` on an exact rational: round half to
even at two decimal places (history.py:241 applies `round(stability_score, 2)`
to the score before returning it). -/
def pyRound2 (q : ℚ) : ℚ :=
  let x := q * 100
  let n : ℤ := Rat.floor x
  let f : ℚ := x - (n : ℚ)
  let r : ℤ :=
    if Rat.blt f (Rat.divInt 1 2) then n
    else if Rat.blt (Rat.divInt 1 2) f then n + 1
    else if n % 2 = 0 then n else n + 1
  Rat.divInt r 100

/-- Embedding of `HistoricalAnalyzer._calculate_stability_score`
(history.py:231-241): `100.0` when `total_resources == 0`, otherwise
`round(max(0, 100 - (len(changes)/total_resources) * 100), 2)`. -/
def calculate_stability_score (changeCount totalResources : Nat) : ℚ :=
  if totalResources = 0 then 100
  else
    let change_ratio : ℚ := Rat.divInt changeCount totalResources
    let stability_score : ℚ := ratMax 0 (100 - change_ratio * 100)
    pyRound2 stability_score

unseal Rat.mul Rat.sub in
theorem pyRound2_zero : pyRound2 0 = 0 := by decide

/-- Rounding to two decimals keeps a score inside [0, 100]. -/
theorem pyRound2_bounds (q : ℚ) (h0 : 0 ≤ q) (h1 : q ≤ 100) :
    0 ≤ pyRound2 q ∧ pyRound2 q ≤ 100 := by
  have hx0 : (0:ℚ) ≤ q * 100 := by nlinarith
  have hx1 : q * 100 ≤ 10000 := by nlinarith
  have hfl : (0:ℤ) ≤ ⌊q * 100⌋ := Int.floor_nonneg.mpr hx0
  have hfu : ⌊q * 100⌋ ≤ 10000 := by
    have h := Int.floor_le_floor (α := ℚ) hx1
    simpa using h
  have hle : (⌊q * 100⌋ : ℚ) ≤ q * 100 := Int.floor_le _
  have hhalf : Rat.divInt 1 2 = (1:ℚ)/2 := by
    rw [Rat.divInt_eq_div]; norm_num
  have key : ∀ r : ℤ, 0 ≤ r → r ≤ 10000 →
      (0 ≤ Rat.divInt r 100 ∧ Rat.divInt r 100 ≤ 100) := by
    intro r hr0 hr1
    rw [Rat.divInt_eq_div]
    constructor
    · apply div_nonneg _ (by norm_num)
      exact_mod_cast hr0
    · rw [div_le_iff₀ (by norm_num)]
      have h : (r:ℚ) ≤ 10000 := by exact_mod_cast hr1
      push_cast
      linarith
  have hsucc : ¬ Rat.blt (q * 100 - (⌊q * 100⌋ : ℚ)) (Rat.divInt 1 2) = true →
      ⌊q * 100⌋ + 1 ≤ 10000 := by
    intro hnb
    have hge : (1:ℚ)/2 ≤ q * 100 - (⌊q * 100⌋ : ℚ) := by
      have h2 : ¬ (q * 100 - (⌊q * 100⌋ : ℚ) < Rat.divInt 1 2) := fun hc => hnb hc
      rw [hhalf] at h2
      exact not_lt.mp h2
    have hlt : (⌊q * 100⌋ : ℚ) < 10000 := by linarith
    have h3 : ⌊q * 100⌋ < 10000 := by exact_mod_cast hlt
    omega
  simp only [pyRound2, ratFloor_eq_floor]
  split_ifs with hb1 hb2 hb3
  · exact key _ hfl hfu
  · exact key _ (by omega) (hsucc hb1)
  · exact key _ hfl hfu
  · exact key _ (by omega) (hsucc hb1)

unseal Rat.mul Rat.add Rat.sub Rat.inv in
/-- Counterexample to C8 as stated: at 1 change among 3 resources the code
returns `round(200/3, 2) = 66.67`, not the exact `100 − min(100, 100·(1/3))
= 200/3` claimed by the spec formula. -/
theorem C8_counterexample :
    calculate_stability_score 1 3 = Rat.divInt 6667 100 ∧
    calculate_stability_score 1 3 ≠ 100 - min 100 (100 * ((1:ℚ) / (3:ℚ))) := by
  have h : calculate_stability_score 1 3 = Rat.divInt 6667 100 := by decide
  refine ⟨h, ?_⟩
  rw [h, Rat.divInt_eq_div]
  have hmin : min (100:ℚ) (100 * ((1:ℚ)/(3:ℚ))) = 100 * ((1:ℚ)/(3:ℚ)) := by
    apply min_eq_right; norm_num
  rw [hmin]
  push_cast
  norm_num

/-- C8 (amended): the stability score equals the spec's formula only after
rounding to two decimals: it is `100` when `totalResources = 0`, and
`round₂(100 − min(100, 100·c/t))` when `t > 0`; it always lies in [0, 100],
`calculate_stability_score 0 0 = 100`, and every-resource-changed scores 0. -/
theorem C8_stability_score_rounded (c t : Nat) :
    (t = 0 → calculate_stability_score c t = 100) ∧
    (0 < t → calculate_stability_score c t =
      pyRound2 (100 - min 100 (100 * ((c:ℚ) / (t:ℚ))))) ∧
    0 ≤ calculate_stability_score c t ∧ calculate_stability_score c t ≤ 100 ∧
    calculate_stability_score 0 0 = 100 ∧
    (0 < t → calculate_stability_score t t = 0) := by
  refine ⟨?_, ?_, ?_, ?_, ?_, ?_⟩
  · intro h
    simp [calculate_stability_score, h]
  · intro ht
    have htne : t ≠ 0 := ht.ne'
    simp only [calculate_stability_score, if_neg htne]
    congr 1
    rw [ratMax_eq_max, Rat.divInt_eq_div]
    push_cast
    rcases le_total ((100:ℚ) * ((c:ℚ)/(t:ℚ))) 100 with h | h
    · rw [min_eq_right h, max_eq_right (by linarith [mul_comm ((c:ℚ)/(t:ℚ)) (100:ℚ)])]
      ring
    · rw [min_eq_left h, max_eq_left (by linarith [mul_comm ((c:ℚ)/(t:ℚ)) (100:ℚ)])]
      norm_num
  · by_cases h : t = 0
    · simp [calculate_stability_score, h]
    · simp only [calculate_stability_score, if_neg h]
      refine (pyRound2_bounds _ ?_ ?_).1
      · rw [ratMax_eq_max]; exact le_max_left _ _
      · rw [ratMax_eq_max]
        apply max_le (by norm_num)
        have h2 : (0:ℚ) ≤ Rat.divInt c t * 100 := by
          rw [Rat.divInt_eq_div]
          positivity
        linarith
  · by_cases h : t = 0
    · simp [calculate_stability_score, h]
    · simp only [calculate_stability_score, if_neg h]
      refine (pyRound2_bounds _ ?_ ?_).2
      · rw [ratMax_eq_max]; exact le_max_left _ _
      · rw [ratMax_eq_max]
        apply max_le (by norm_num)
        have h2 : (0:ℚ) ≤ Rat.divInt c t * 100 := by
          rw [Rat.divInt_eq_div]
          positivity
        linarith
  · simp [calculate_stability_score]
  · intro ht
    have htne : t ≠ 0 := ht.ne'
    simp only [calculate_stability_score, if_neg htne]
    have h1 : Rat.divInt (t:ℤ) (t:ℤ) = 1 := Rat.divInt_self' (by exact_mod_cast htne)
    rw [h1]
    have h2 : ratMax 0 (100 - 1 * 100) = (0:ℚ) := by
      rw [ratMax_eq_max]; norm_num
    rw [h2, pyRound2_zero]

/-- Witness for the amended C8 at 1 change among 3 resources (rounded-formula
agreement) and 3 changes among 3 resources (zero score). -/
theorem C8_stability_score_rounded_witness :
    (0 < 3 ∧ calculate_stability_score 1 3 =
      pyRound2 (100 - min 100 (100 * (((1:ℕ):ℚ) / ((3:ℕ):ℚ))))) ∧
    (0 < 3 ∧ calculate_stability_score 3 3 = 0) :=
  ⟨⟨by decide, ((C8_stability_score_rounded 1 3).2.1) (by decide)⟩,
   ⟨by decide, ((C8_stability_score_rounded 1 3).2.2.2.2.2) (by decide)⟩⟩

/-- Descending-timestamp order used by `ORDER BY s.timestamp DESC`
(service.py:102): row `a` precedes row `b` when `b`'s joined scan timestamp
is at most `a`'s. -/
def tsDesc (a b : ResourceRow × Nat) : Prop := b.2 ≤ a.2

instance : DecidableRel tsDesc := fun a b => Nat.decLe b.2 a.2

instance : IsTotal (ResourceRow × Nat) tsDesc := ⟨fun a b => le_total b.2 a.2⟩

instance : IsTrans (ResourceRow × Nat) tsDesc := ⟨fun _ _ _ h1 h2 => le_trans h2 h1⟩

/-- Embedding of `ResourceDAO.history` (service.py:87-103): inner join of
`resource_records` with `scan_records` on `scan_id`, filtered by kind, name
and namespace (`IS NULL` when none), ordered by scan timestamp descending,
limited. Each result row is the resource row paired with the joined scan
timestamp (`SELECT r.*, s.timestamp`). -/
def historyRows (s : Store) (kind name : String) (ns : Option String) (lim : Nat) :
    List (ResourceRow × Nat) :=
  let joined := s.resources.filterMap (fun r =>
    match s.scans.find? (fun sc => sc.id == r.scan_id) with
    | some sc =>
        if r.kind == kind && r.name == name && r.nspace == ns then some (r, sc.timestamp)
        else none
    | none => none)
  (List.insertionSort tsDesc joined).take lim

/-- One entry of the timeline built by
`HistoricalAnalyzer.get_resource_timeline` (history.py:178-203): the
`changed` key is absent (`none`) exactly when the loop index is the last. -/
structure TimelineEntry where
  timestamp : Nat
  scan_id : Nat
  resource_hash : String
  changed : Option Bool
deriving DecidableEq

/-- The timeline loop of history.py:185-201: entry `i` compares its hash
with `history[i + 1]` (the chronologically previous observation, since the
rows arrive timestamp-descending); the final entry gets no `changed` key. -/
def buildTimeline : List (ResourceRow × Nat) → List TimelineEntry
  | [] => []
  | [r] => [⟨r.2, r.1.scan_id, r.1.resource_hash, none⟩]
  | r :: r2 :: rest =>
      ⟨r.2, r.1.scan_id, r.1.resource_hash,
        some (r.1.resource_hash != r2.1.resource_hash)⟩ :: buildTimeline (r2 :: rest)

/-- Embedding of `HistoricalAnalyzer.get_resource_timeline`
(history.py:178-203) composed with `DatabaseService.get_resource_history`
(service.py:253-260). -/
def get_resource_timeline (s : Store) (kind name : String) (ns : Option String)
    (lim : Nat) : List TimelineEntry :=
  buildTimeline (historyRows s kind name ns lim)

/-- The timeline copies the join timestamps positionally. -/
theorem buildTimeline_map_timestamp (l : List (ResourceRow × Nat)) :
    (buildTimeline l).map (fun e => e.timestamp) = l.map (fun r => r.2) := by
  induction l with
  | nil => rfl
  | cons r tl ih =>
    cases tl with
    | nil => rfl
    | cons r2 rest =>
      simp only [buildTimeline, List.map_cons] at ih ⊢
      rw [ih]

/-- The hash of the first timeline entry is the hash of the first join row. -/
theorem buildTimeline_head_hash (r : ResourceRow × Nat) (tl : List (ResourceRow × Nat)) :
    ∀ e, (buildTimeline (r :: tl)).head? = some e → e.resource_hash = r.1.resource_hash := by
  cases tl with
  | nil => intro e he; cases he; rfl
  | cons r2 rest => intro e he; cases he; rfl

/-- Every timeline entry except the last is flagged with the comparison of
its own hash against the next (chronologically previous) entry's hash. -/
theorem buildTimeline_changed (l : List (ResourceRow × Nat)) :
    ∀ i e1 e2, (buildTimeline l).get? i = some e1 →
      (buildTimeline l).get? (i + 1) = some e2 →
      e1.changed = some (e1.resource_hash != e2.resource_hash) := by
  induction l with
  | nil => intro i e1 e2 h1 h2; simp [buildTimeline] at h1
  | cons r tl ih =>
    cases tl with
    | nil =>
      intro i e1 e2 h1 h2
      match i with
      | 0 => simp [buildTimeline] at h2
      | Nat.succ j => simp [buildTimeline] at h1
    | cons r2 rest =>
      intro i e1 e2 h1 h2
      rw [show buildTimeline (r :: r2 :: rest) =
        ⟨r.2, r.1.scan_id, r.1.resource_hash,
          some (r.1.resource_hash != r2.1.resource_hash)⟩ ::
          buildTimeline (r2 :: rest) from rfl] at h1 h2
      match i with
      | 0 =>
        rw [List.get?_cons_zero] at h1
        rw [List.get?_cons_succ, List.get?_zero] at h2
        cases h1
        have hh := buildTimeline_head_hash r2 rest e2 h2
        rw [hh]
      | Nat.succ j =>
        rw [List.get?_cons_succ] at h1 h2
        exact ih j e1 e2 h1 h2

/-- The last timeline entry carries no `changed` flag. -/
theorem buildTimeline_last (l : List (ResourceRow × Nat)) :
    ∀ e, (buildTimeline l).getLast? = some e → e.changed = none := by
  induction l with
  | nil => intro e he; simp [buildTimeline] at he
  | cons r tl ih =>
    cases tl with
    | nil => intro e he; cases he; rfl
    | cons r2 rest =>
      intro e he
      rw [show buildTimeline (r :: r2 :: rest) =
        ⟨r.2, r.1.scan_id, r.1.resource_hash,
          some (r.1.resource_hash != r2.1.resource_hash)⟩ ::
          buildTimeline (r2 :: rest) from rfl] at he
      obtain ⟨e2, tl2, heq⟩ : ∃ e2 tl2, buildTimeline (r2 :: rest) = e2 :: tl2 := by
        cases rest <;> exact ⟨_, _, rfl⟩
      rw [heq, List.getLast?_cons_cons, ← heq] at he
      exact ih e he

/-- The join rows come out of `ORDER BY s.timestamp DESC` sorted with the
larger timestamps first. -/
theorem historyRows_sorted (s : Store) (kind name : String) (ns : Option String)
    (lim : Nat) : (historyRows s kind name ns lim).Pairwise tsDesc := by
  unfold historyRows
  exact List.Pairwise.sublist (List.take_sublist _ _)
    (List.sorted_insertionSort tsDesc _)

/-- Store for the C6 scenario: one ConfigMap observed in three scans at
timestamps 1, 2, 3 with chronological hashes h1, h1, h2. -/
def c6Store : Store :=
  { scans := [⟨1, 1, some "ctx", none, "full", 1, none, 0, none⟩,
              ⟨2, 2, some "ctx", none, "full", 1, none, 0, none⟩,
              ⟨3, 3, some "ctx", none, "full", 1, none, 0, none⟩],
    resources :=
      [⟨1, 1, "v1", "ConfigMap", some "default", "cfg", "d1", "h1", false, none, none, none⟩,
       ⟨2, 2, "v1", "ConfigMap", some "default", "cfg", "d1", "h1", false, none, none, none⟩,
       ⟨3, 3, "v1", "ConfigMap", some "default", "cfg", "d2", "h2", false, none, none, none⟩],
    changes := [], nextScanId := 4, nextResourceId := 4, nextChangeId := 1 }

/-- Counterexample to C6 as stated: the timeline for the key observed at
timestamps 1, 2, 3 with hashes h1, h1, h2 comes back timestamp-DESCENDING as
[(3, changed=true), (2, changed=false), (1, no flag)] — the flag-less entry
is the LAST one and the flag list is not the spec's ascending
[no-flag, false, true]. -/
theorem C6_counterexample :
    (get_resource_timeline c6Store "ConfigMap" "cfg" (some "default") 10).map
        (fun e => (e.timestamp, e.changed)) =
      [(3, some true), (2, some false), (1, none)] ∧
    (get_resource_timeline c6Store "ConfigMap" "cfg" (some "default") 10).map
        (fun e => e.changed) ≠ [none, some false, some true] :=
  ⟨by decide, by decide⟩

/-- C6 (amended): the timeline is ordered by scan timestamp DESCENDING;
every entry with a successor in the list carries
`changed = (its hash ≠ the next — chronologically previous — entry's hash)`,
and the final (oldest) entry carries no `changed` flag. -/
theorem C6_timeline_descending_last_unflagged
    (s : Store) (kind name : String) (ns : Option String) (lim : Nat) :
    (get_resource_timeline s kind name ns lim).Pairwise
      (fun a b => b.timestamp ≤ a.timestamp) ∧
    (∀ i e1 e2, (get_resource_timeline s kind name ns lim).get? i = some e1 →
      (get_resource_timeline s kind name ns lim).get? (i + 1) = some e2 →
      e1.changed = some (e1.resource_hash != e2.resource_hash)) ∧
    (∀ e, (get_resource_timeline s kind name ns lim).getLast? = some e →
      e.changed = none) := by
  refine ⟨?_, ?_, ?_⟩
  · have hs := historyRows_sorted s kind name ns lim
    have hmap : ((get_resource_timeline s kind name ns lim).map (fun e => e.timestamp))
        = (historyRows s kind name ns lim).map (fun r => r.2) :=
      buildTimeline_map_timestamp _
    have h2 : ((historyRows s kind name ns lim).map (fun r => r.2)).Pairwise
        (fun a b => b ≤ a) := (List.pairwise_map).mpr (hs.imp (fun h => h))
    rw [← hmap] at h2
    exact (List.pairwise_map).mp h2
  · exact fun i e1 e2 h1 h2 => buildTimeline_changed _ i e1 e2 h1 h2
  · exact fun e he => buildTimeline_last _ e he

/-- Witness for the amended C6 at the concrete three-scan store: the first
entry is flagged against the second, and the last entry is unflagged. -/
theorem C6_timeline_descending_last_unflagged_witness :
    (⟨3, 3, "h2", some true⟩ : TimelineEntry).changed =
      some ((⟨3, 3, "h2", some true⟩ : TimelineEntry).resource_hash
        != (⟨2, 2, "h1", some false⟩ : TimelineEntry).resource_hash) ∧
    (⟨1, 1, "h1", none⟩ : TimelineEntry).changed = none :=
  ⟨(C6_timeline_descending_last_unflagged c6Store "ConfigMap" "cfg" (some "default") 10).2.1
      0 ⟨3, 3, "h2", some true⟩ ⟨2, 2, "h1", some false⟩ (by decide) (by decide),
   (C6_timeline_descending_last_unflagged c6Store "ConfigMap" "cfg" (some "default") 10).2.2
      ⟨1, 1, "h1", none⟩ (by decide)⟩

/-- Descending-timestamp order of `ORDER BY timestamp DESC` on scan rows
(service.py:64). -/
def scanTsDesc (a b : ScanRow) : Prop := b.timestamp ≤ a.timestamp

instance : DecidableRel scanTsDesc := fun a b => Nat.decLe b.timestamp a.timestamp

instance : IsTotal ScanRow scanTsDesc := ⟨fun a b => le_total b.timestamp a.timestamp⟩

instance : IsTrans ScanRow scanTsDesc := ⟨fun _ _ _ h1 h2 => le_trans h2 h1⟩

/-- Embedding of `ScanDAO.get_in_range` (service.py:56-64) with no cluster
context, as called through `DatabaseService.get_scans_in_range`
(service.py:244-251) by `analyze_drift`: scans with
`start ≤ timestamp ≤ stop`, ordered by timestamp descending. -/
def getScansInRange (s : Store) (start stop : Nat) : List ScanRow :=
  List.insertionSort scanTsDesc
    (s.scans.filter (fun sc => start ≤ sc.timestamp && sc.timestamp ≤ stop))

/-- Result shape of `HistoricalAnalyzer.analyze_drift` (history.py:23-58):
either the insufficient-data dictionary `{"error", "available_scans"}` or
the ordinary drift report (modelled by its `total_changes` and
`stability_score` fields). -/
inductive DriftOutcome where
  | insufficient (available_scans : Nat)
  | report (total_changes : Nat) (stability_score : ℚ)
deriving DecidableEq

/-- Embedding of `HistoricalAnalyzer.analyze_drift` (history.py:23-58):
fewer than 2 scans in the window yields the structured insufficient-data
dictionary carrying `available_scans = len(scans)`; otherwise the report is
built from `detect_changes(newest.id, oldest.id)` — the scans arrive
timestamp-descending, so `scans[0]` is the newest and `scans[-1]` the
oldest. -/
def analyzeDrift (s : Store) (windowStart windowEnd : Nat) : DriftOutcome :=
  let scans := getScansInRange s windowStart windowEnd
  if h : scans.length < 2 then DriftOutcome.insufficient scans.length
  else
    let newest := scans.get ⟨0, by omega⟩
    let oldest := scans.getLast (by intro he; rw [he] at h; exact h (by decide))
    let changes := (detectChanges s newest.id (some oldest.id)).2
    DriftOutcome.report changes.length
      (calculate_stability_score changes.length newest.total_resources)

/-- Modelled from the spec: `ScanDAO.find_by_cluster_context` is called by
`HistoricalRepository` (historical_repository.py:29 and 213) but no method
of that name exists anywhere under src/; the spec describes the window as
the cluster's scans since the cutoff, so the model filters the scan table
by cluster context and `since ≤ timestamp`, in table order. -/
def find_by_cluster_context (s : Store) (ctx : String) (since : Nat) : List ScanRow :=
  s.scans.filter (fun sc => sc.cluster_context == some ctx && since ≤ sc.timestamp)

/-- Result shape of `HistoricalRepository.get_drift_analysis`
(historical_repository.py:207-285): either one of its `{"error": ...}`
dictionaries or the ordinary report, modelled by the baseline scan id, the
drift points as `(scan_id, drift_score)` pairs, and `total_drift_events`. -/
inductive RepoDriftOutcome where
  | error (msg : String)
  | report (baseline_scan_id : Nat) (drift_points : List (Nat × Nat))
      (total_drift_events : Nat)
deriving DecidableEq

/-- Embedding of `HistoricalRepository.get_drift_analysis`
(historical_repository.py:207-285). The `{"error"}` dictionary is returned
only when the window holds NO scans; `sorted(scans, key=lambda x:
x.get("created_at", datetime.min))` sorts scan_records rows by a key absent
from the table, so the (stable) sort is the identity; each scan other than
the baseline contributes one drift point whose score is
`len(added) + len(removed) + len(modified)` of `compare_scans`; a
`ValueError` from `compare_scans` propagates (`Except.error`). This
definition is the per-scan drift-point loop of lines 243-262. -/
def driftPoints (s : Store) (scans : List ScanRow) (bid : Nat) :
    Except String RepoDriftOutcome :=
  match (scans.filter (fun sc => sc.id != bid)).mapM (fun sc =>
    (compareScans s bid sc.id).map (fun r =>
      (sc.id, r.1.1.length + r.1.2.1.length + r.1.2.2.1.length))) with
  | Except.error e => Except.error e
  | Except.ok pts => Except.ok (RepoDriftOutcome.report bid pts pts.length)

/-- Embedding of the remainder of `get_drift_analysis`: the empty-window
error dictionary, then the baseline resolution (`sorted_scans[0]` when no
explicit baseline; the `{"error": "Baseline scan not found"}` dictionary
when an explicit baseline id is absent from the table), then the loop. -/
def getDriftAnalysis (s : Store) (ctx : String) (since : Nat)
    (baselineScanId : Option Nat) : Except String RepoDriftOutcome :=
  let scans := find_by_cluster_context s ctx since
  if scans.length = 0 then
    Except.ok (RepoDriftOutcome.error "No scans found for cluster in specified period")
  else
    let obase : Option Nat :=
      match baselineScanId with
      | none => scans.head?.map (fun sc => sc.id)
      | some bid => (findScanById s bid).map (fun sc => sc.id)
    match obase with
    | none => Except.ok (RepoDriftOutcome.error "Baseline scan not found")
    | some bid => driftPoints s scans bid

/-- Store for the C7 scenario: exactly one scan (id 1, timestamp 5) of
cluster context ctx, no resources. -/
def c7Store : Store :=
  { scans := [⟨1, 5, some "ctx", none, "full", 0, none, 0, none⟩],
    resources := [], changes := [], nextScanId := 2, nextResourceId := 1,
    nextChangeId := 1 }

/-- Counterexample to C7 as stated: with exactly one scan in the window,
`HistoricalRepository.get_drift_analysis` returns an ORDINARY drift report
with zero drift points — no insufficient-data flag and no
`available_scans` count (only `analyze_drift` in core/history.py produces
those). -/
theorem C7_counterexample :
    (find_by_cluster_context c7Store "ctx" 0).length = 1 ∧
    getDriftAnalysis c7Store "ctx" 0 none =
      Except.ok (RepoDriftOutcome.report 1 [] 0) :=
  ⟨by decide, by rfl⟩

/-- C7 (amended): the insufficient-data behaviour belongs to
`HistoricalAnalyzer.analyze_drift` alone — fewer than 2 scans in its window
yields the structured `{"error", "available_scans" = len(scans)}` result
(no exception), while `HistoricalRepository.get_drift_analysis` flags an
error only for an EMPTY window and answers a one-scan window with an
ordinary report whose `drift_points` list is empty. -/
theorem C7_insufficient_data_core_only
    (s : Store) (ws we : Nat) (ctx : String) (since : Nat) :
    ((getScansInRange s ws we).length < 2 →
      analyzeDrift s ws we =
        DriftOutcome.insufficient (getScansInRange s ws we).length) ∧
    ((find_by_cluster_context s ctx since).length = 1 →
      ∃ bid, getDriftAnalysis s ctx since none =
        Except.ok (RepoDriftOutcome.report bid [] 0)) := by
  constructor
  · intro h
    unfold analyzeDrift
    rw [dif_pos h]
  · intro h1
    obtain ⟨sc, hsc⟩ : ∃ sc, find_by_cluster_context s ctx since = [sc] := by
      match hh : find_by_cluster_context s ctx since with
      | [] => rw [hh] at h1; simp at h1
      | [sc] => exact ⟨sc, rfl⟩
      | a :: b :: t => rw [hh] at h1; simp at h1
    refine ⟨sc.id, ?_⟩
    unfold getDriftAnalysis
    simp only [hsc]
    rw [if_neg (by simp)]
    show driftPoints s [sc] sc.id = Except.ok (RepoDriftOutcome.report sc.id [] 0)
    unfold driftPoints
    have hf : List.filter (fun sc2 => sc2.id != sc.id) [sc] = [] := by simp
    rw [hf]
    rfl

/-- Witness for the amended C7 at the one-scan store: the core analyzer
reports `available_scans = 1`, the repository answers an ordinary zero-
drift-point report. -/
theorem C7_insufficient_data_core_only_witness :
    analyzeDrift c7Store 0 10 =
      DriftOutcome.insufficient (getScansInRange c7Store 0 10).length ∧
    (∃ bid, getDriftAnalysis c7Store "ctx" 0 none =
      Except.ok (RepoDriftOutcome.report bid [] 0)) :=
  ⟨(C7_insufficient_data_core_only c7Store 0 10 "ctx" 0).1 (by decide),
   (C7_insufficient_data_core_only c7Store 0 10 "ctx" 0).2 (by decide)⟩

/-- Pydantic model `K8sResource` (model/kubernetes.py:17-30): the declared
fields in declaration order; an optional block is `none` when the Python
value is None. -/
structure K8sRes where
  api_version : String
  kind : String
  metadata : List (String × JVal)
  spec : Option (List (String × JVal))
  status : Option (List (String × JVal))
  data : Option (List (String × JVal))

/-- `K8sResource.model_dump()`: the declared fields in declaration order;
a None block dumps as JSON null. -/
def modelDump (r : K8sRes) : List (String × JVal) :=
  [("api_version", JVal.str r.api_version),
   ("kind", JVal.str r.kind),
   ("metadata", JVal.obj r.metadata),
   ("spec", match r.spec with | none => JVal.null | some l => JVal.obj l),
   ("status", match r.status with | none => JVal.null | some l => JVal.obj l),
   ("data", match r.data with | none => JVal.null | some l => JVal.obj l)]

/-- `K8sResource.name` (kubernetes.py:31-34): `metadata.get("name", "")`
(the row's `name` column is TEXT, so a string value is read off). -/
def resName (r : K8sRes) : String :=
  match lookupKey "name" r.metadata with
  | some (JVal.str s) => s
  | _ => ""

/-- `K8sResource.namespace` (kubernetes.py:36-39): `metadata.get("namespace")`. -/
def resNamespace (r : K8sRes) : Option String :=
  match lookupKey "namespace" r.metadata with
  | some (JVal.str s) => some s
  | _ => none

/-- `K8sResource.labels` (kubernetes.py:41-44): `metadata.get("labels", {})`. -/
def resLabels (r : K8sRes) : List (String × JVal) :=
  match lookupKey "labels" r.metadata with
  | some (JVal.obj l) => l
  | _ => []

/-- `K8sResource.annotations` (kubernetes.py:46-49):
`metadata.get("annotations", {})`. -/
def resAnnots (r : K8sRes) : List (String × JVal) :=
  match lookupKey "annotations" r.metadata with
  | some (JVal.obj l) => l
  | _ => []

/-- `K8sResource.is_helm_managed` (kubernetes.py:51-60). -/
def isHelmManaged (r : K8sRes) : Bool :=
  (resLabels r).any (fun e => e.1 == "helm.sh/release") ||
  (match lookupKey "app.kubernetes.io/managed-by" (resLabels r) with
   | some (JVal.str s) => s == "Helm"
   | _ => false) ||
  (resAnnots r).any (fun e => e.1 == "meta.helm.sh/release-name")

/-- `resource.labels.get("helm.sh/release")` as stored by store_scan
(service.py:183). -/
def helmReleaseLabel (r : K8sRes) : Option String :=
  match lookupKey "helm.sh/release" (resLabels r) with
  | some (JVal.str s) => some s
  | _ => none

/-- `json.dumps(resource.labels) if resource.labels else None`
(service.py:184): an empty dict is falsy. `json.dumps` without `sort_keys`
serializes in insertion order (`ser`, no canon). -/
def labelsField (r : K8sRes) : Option String :=
  match resLabels r with
  | [] => none
  | l => some (ser (JVal.obj l))

/-- `json.dumps(resource.annotations) if resource.annotations else None`
(service.py:185-187). -/
def annotsField (r : K8sRes) : Option String :=
  match resAnnots r with
  | [] => none
  | l => some (ser (JVal.obj l))

/-- One `resource_records` row built by the loop of store_scan
(service.py:168-188): the dump is hashed (`_calculate_resource_hash`),
`resource_data` is the plain (insertion-ordered) `json.dumps`, and the row
id comes from the autoincrement at bulk insert. -/
def mkResourceRow (rid scanId : Nat) (r : K8sRes) : ResourceRow :=
  { id := rid, scan_id := scanId,
    api_version := r.api_version, kind := r.kind,
    nspace := resNamespace r, name := resName r,
    resource_data := ser (JVal.obj (modelDump r)),
    resource_hash := (calcResourceHash (modelDump r)).getD "",
    is_helm_managed := isHelmManaged r,
    helm_release := helmReleaseLabel r,
    labels := labelsField r,
    annotations := annotsField r }

/-- Embedding of `DatabaseService.store_scan` (service.py:146-193): create
the scan header with `total_resources = len(resources)`, build one record
per resource, bulk-insert them when the list is nonempty (skipping the
insert of an empty list leaves the same store), and return the new scan
id. -/
def storeScan (s : Store) (resources : List K8sRes) (timestamp : Nat)
    (context nspace clusterVersion clusterInfo : Option String)
    (nodeCount : Nat) : Store × Nat :=
  let scanId := s.nextScanId
  let scanRow : ScanRow :=
    ⟨scanId, timestamp, context, nspace, "full", resources.length,
     clusterVersion, nodeCount, clusterInfo⟩
  let records := resources.enum.map
    (fun p => mkResourceRow (s.nextResourceId + p.1) scanId p.2)
  (⟨s.scans ++ [scanRow], s.resources ++ records, s.changes,
    s.nextScanId + 1, s.nextResourceId + records.length, s.nextChangeId⟩, scanId)

/-- `ScanDAO.find_by_id`-style lookup right after an insert with a fresh id
finds exactly the inserted scan header. -/
theorem findScan_append (n : Nat) (l : List ScanRow) (row : ScanRow)
    (hlt : ∀ c ∈ l, c.id < n) (hid : row.id = n) :
    (l ++ [row]).find? (fun c => c.id == n) = some row := by
  induction l with
  | nil => simp [List.find?, hid]
  | cons c rest ih =>
      rw [List.cons_append, List.find?]
      have hc : (c.id == n) = false := by
        have := hlt c (by simp)
        simp only [beq_eq_false_iff_ne, ne_eq]
        omega
      rw [hc]
      exact ih (fun c2 hc2 => hlt c2 (by simp [hc2]))

/-- C9: once store_scan completes, the new scan header's `total_resources`
equals the number of resource rows stored under the new scan id, which
equals the length of the ingested list (zero-resource case included: no
rows are inserted and the header records 0). -/
theorem C9_store_scan_total_resources
    (s : Store) (resources : List K8sRes) (ts : Nat)
    (ctx ns cv ci : Option String) (nc : Nat)
    (hres : ∀ r ∈ s.resources, r.scan_id < s.nextScanId)
    (hscans : ∀ sc ∈ s.scans, sc.id < s.nextScanId) :
    (∃ row, findScanById (storeScan s resources ts ctx ns cv ci nc).1
        (storeScan s resources ts ctx ns cv ci nc).2 = some row ∧
      row.total_resources = resources.length) ∧
    ((storeScan s resources ts ctx ns cv ci nc).1.resources.filter
        (fun r => r.scan_id == (storeScan s resources ts ctx ns cv ci nc).2)).length
      = resources.length := by
  constructor
  · refine ⟨⟨s.nextScanId, ts, ctx, ns, "full", resources.length, cv, nc, ci⟩, ?_, rfl⟩
    exact findScan_append s.nextScanId s.scans _ hscans rfl
  · simp only [storeScan]
    rw [List.filter_append]
    have h1 : s.resources.filter (fun r => r.scan_id == s.nextScanId) = [] := by
      rw [List.filter_eq_nil]
      intro r hr
      have hlt := hres r hr
      simp only [beq_eq_false_iff_ne, ne_eq, Bool.not_eq_true]
      omega
    have h2 : (resources.enum.map
          (fun p => mkResourceRow (s.nextResourceId + p.1) s.nextScanId p.2)).filter
          (fun r => r.scan_id == s.nextScanId) =
        resources.enum.map
          (fun p => mkResourceRow (s.nextResourceId + p.1) s.nextScanId p.2) := by
      rw [List.filter_eq_self]
      intro a ha
      obtain ⟨p, hp, hpe⟩ := List.mem_map.mp ha
      rw [← hpe]
      simp [mkResourceRow]
    rw [h1, h2, List.nil_append, List.length_map, List.enum_length]

/-- Store for the C9 witness: one prior scan (id 1) with one resource row. -/
def c9Store : Store :=
  { scans := [⟨1, 5, some "ctx", none, "full", 1, none, 0, none⟩],
    resources :=
      [⟨1, 1, "v1", "ConfigMap", some "default", "cfg", "d", "h", false, none, none, none⟩],
    changes := [], nextScanId := 2, nextResourceId := 2, nextChangeId := 1 }

/-- Resource ingested in the C9 witness. -/
def c9Res : K8sRes :=
  { api_version := "v1", kind := "ConfigMap",
    metadata := [("name", JVal.str "cfg"), ("namespace", JVal.str "default")],
    spec := none, status := none, data := some [("key", JVal.str "v")] }

/-- Witness for C9 at a concrete one-scan store ingesting one resource. -/
theorem C9_store_scan_total_resources_witness :
    (∃ row, findScanById (storeScan c9Store [c9Res] 7 none none none none 0).1
        (storeScan c9Store [c9Res] 7 none none none none 0).2 = some row ∧
      row.total_resources = [c9Res].length) ∧
    ((storeScan c9Store [c9Res] 7 none none none none 0).1.resources.filter
        (fun r => r.scan_id == (storeScan c9Store [c9Res] 7 none none none none 0).2)).length
      = [c9Res].length :=
  C9_store_scan_total_resources c9Store [c9Res] 7 none none none none 0
    (by decide) (by decide)
